import Mathlib

/-!
Verification development for the exam-scheduling optimization core
(models, constraint checkers, search-space preparation and the SA/PSO
search loops).

Modelling conventions:
* Python floats are modelled as exact rationals (ℚ); the claims under
  study are about zero/positivity/ordering/equality of penalty values,
  which the float implementation realises with the same literals.
* Python's `random` draws are oracle parameters of the step functions:
  every theorem quantifies over all possible draws.
* The deprecated `sessions` field of `Course` is not modelled: the
  engines never create sessions (oversized courses are split into
  separate `Course` records instead), so every `if course.sessions:`
  branch of the checkers is dead code for the schedules this system
  builds, and the session-distance penalty is identically zero.
* Mutation of Python objects becomes functional update (`List.set`);
  dict lookups built by `{r.room_id: r for r in rooms}` are modelled by
  a last-occurrence-wins lookup, matching dict comprehension semantics.
-/

/-- Course record (src/models/course.py).  Assignment fields are `Option`
until scheduled; `duration` is an `Int` (Python int, minutes). -/
structure Course where
  course_id : String
  name : String
  location : String
  exam_format : String
  note : String := ""
  student_count : Nat := 0
  assigned_date : Option String := none
  assigned_time : Option String := none
  assigned_room : Option String := none
  assigned_proctor_id : Option String := none
  is_locked : Bool := false
  duration : Int := 90
deriving DecidableEq, Repr

instance : Inhabited Course :=
  ⟨{ course_id := "", name := "", location := "", exam_format := "" }⟩

/-- Room record (src/models/room.py). -/
structure Room where
  room_id : String
  capacity : Nat
  location : String
deriving DecidableEq, Repr

instance : Inhabited Room := ⟨{ room_id := "", capacity := 0, location := "" }⟩

/-- Proctor record (src/src/models/proctor.py). -/
structure Proctor where
  proctor_id : String
  name : String
  location : Option String := none
deriving DecidableEq, Repr

instance : Inhabited Proctor := ⟨{ proctor_id := "", name := "" }⟩

/-- Schedule record (src/src/models/solution.py): a candidate solution. -/
structure Schedule where
  courses : List Course := []
  fitness_score : ℚ := 0
deriving DecidableEq, Repr

/-- Python truthiness of an optional string: `None` and `""` are falsy.
Used for `if course.assigned_proctor_id:` style guards. -/
def strOptTruthy : Option String → Bool
  | none => false
  | some s => s ≠ ""

/-- Course.is_scheduled (no sessions): date, time and room are all
non-None; the proctor is not required. -/
def Course.is_scheduled (c : Course) : Bool :=
  c.assigned_date.isSome && c.assigned_time.isSome && c.assigned_room.isSome

/-- Numeric value of a decimal digit character. -/
def digitVal (ch : Char) : Nat := ch.toNat - '0'.toNat

/-- Hour field of strptime "%H:%M": the regex "2[0-3]|[0-1]\d|\d" with
ordered alternation (the three alternatives are mutually exclusive on
their continuations, so no backtracking is needed). -/
def parseHourHM : List Char → Option (Nat × List Char)
  | [] => none
  | c1 :: rest1 =>
    match rest1 with
    | c2 :: rest2 =>
      if c1 = '2' ∧ '0' ≤ c2 ∧ c2 ≤ '3' then some (20 + digitVal c2, rest2)
      else if (c1 = '0' ∨ c1 = '1') ∧ c2.isDigit then
        some (10 * digitVal c1 + digitVal c2, rest2)
      else if c1.isDigit then some (digitVal c1, rest1)
      else none
    | [] => if c1.isDigit then some (digitVal c1, []) else none

/-- Minute field of strptime "%H:%M": the regex "[0-5]\d|\d". -/
def parseMinuteHM : List Char → Option (Nat × List Char)
  | [] => none
  | c1 :: rest1 =>
    match rest1 with
    | c2 :: rest2 =>
      if '0' ≤ c1 ∧ c1 ≤ '5' ∧ c2.isDigit then
        some (10 * digitVal c1 + digitVal c2, rest2)
      else if c1.isDigit then some (digitVal c1, rest1)
      else none
    | [] => if c1.isDigit then some (digitVal c1, []) else none

/-- datetime.strptime(s, "%H:%M") reduced to minutes since midnight;
`none` models the ValueError raised on a malformed string (including
unconsumed trailing characters). -/
def parseTimeHM (s : String) : Option Nat :=
  match parseHourHM s.toList with
  | some (h, rest) =>
    match rest with
    | ':' :: rest2 =>
      match parseMinuteHM rest2 with
      | some (m, []) => some (60 * h + m)
      | _ => none
    | _ => none
  | none => none

/-- ConstraintChecker._check_overlap (src/src/core/constraints.py):
parse both start times, add the durations, and test half-open interval
intersection; any parse failure is caught and reported as no overlap. -/
def checkOverlap (t1 : String) (d1 : Int) (t2 : String) (d2 : Int) : Bool :=
  match parseTimeHM t1, parseTimeHM t2 with
  | some a, some b =>
    let t1_end : Int := (a : Int) + d1
    let t2_end : Int := (b : Int) + d2
    decide ((a : Int) < t2_end ∧ (b : Int) < t1_end)
  | _, _ => false

/-- Memoization cache of FastConstraintChecker, keyed by
(time1, dur1, time2, dur2). -/
abbrev OverlapCache := List ((String × Int × String × Int) × Bool)

/-- Dictionary lookup in the overlap cache. -/
def cacheLookup (cache : OverlapCache) (k : String × Int × String × Int) :
    Option Bool :=
  (cache.find? (fun e => e.1 = k)).map (·.2)

/-- FastConstraintChecker._check_overlap_cached
(src/src/core/optimization_fast.py): return the cached answer when the
key is present, otherwise compute the very same overlap test as the full
model (the bare `except` also maps parse failure to False) and record it. -/
def checkOverlapCached (cache : OverlapCache) (t1 : String) (d1 : Int)
    (t2 : String) (d2 : Int) : Bool × OverlapCache :=
  let k := (t1, d1, t2, d2)
  match cacheLookup cache k with
  | some b => (b, cache)
  | none =>
    let r := checkOverlap t1 d1 t2 d2
    (r, (k, r) :: cache)

/-- Soundness of a memo cache: every stored answer is the pure answer. -/
def CacheSound (cache : OverlapCache) : Prop :=
  ∀ t1 d1 t2 d2 b, ((t1, d1, t2, d2), b) ∈ cache → b = checkOverlap t1 d1 t2 d2

/-- Lookup in the dict built by the comprehension
`{room.room_id: room for room in rooms}`: the last room with a given id
wins, as in Python dict construction. -/
def roomLookup (rooms : List Room) (rid : String) : Option Room :=
  rooms.foldl (fun acc r => if r.room_id = rid then some r else acc) none

/-- Entries grouped for the room-conflict scan: each scheduled course
contributes ((date, room), (time, duration)). -/
def roomEntries (courses : List Course) : List ((String × String) × (String × Int)) :=
  courses.filterMap (fun c =>
    if c.is_scheduled then
      some ((c.assigned_date.getD "", c.assigned_room.getD ""),
            (c.assigned_time.getD "", c.duration))
    else none)

/-- Entries grouped for the proctor-conflict scan: each scheduled course
with a (truthy) proctor contributes ((date, proctor), (time, duration)). -/
def proctorEntries (courses : List Course) : List ((String × String) × (String × Int)) :=
  courses.filterMap (fun c =>
    if c.is_scheduled && strOptTruthy c.assigned_proctor_id then
      some ((c.assigned_date.getD "", c.assigned_proctor_id.getD ""),
            (c.assigned_time.getD "", c.duration))
    else none)

/-- Number of conflicting pairs: both checkers group entries by key and
scan all pairs inside each group, which counts exactly the pairs i < j of
the flat entry list whose keys coincide and whose times overlap
(defaultdict grouping preserves relative order within a key, and the sum
over groups of within-group pairs is this flat count). -/
def countConflictPairs : List ((String × String) × (String × Int)) → Nat
  | [] => 0
  | e :: rest =>
    rest.countP (fun e2 =>
      decide (e2.1 = e.1) && checkOverlap e.2.1 e.2.2 e2.2.1 e2.2.2)
    + countConflictPairs rest

/-- ConstraintChecker._check_room_conflicts: 1000 per overlapping pair in
the same (date, room) group. -/
def checkRoomConflicts (s : Schedule) : ℚ :=
  1000 * (countConflictPairs (roomEntries s.courses) : ℚ)

/-- ConstraintChecker._check_proctor_conflicts: 1000 per overlapping pair
in the same (date, proctor) group. -/
def checkProctorConflicts (s : Schedule) : ℚ :=
  1000 * (countConflictPairs (proctorEntries s.courses) : ℚ)

/-- Per-course contribution of ConstraintChecker._check_room_capacity:
unknown room is a flat 500; a known room penalizes overflow as
500 * (1 + overflow / 10). -/
def capPenFull (rooms : List Room) (c : Course) : ℚ :=
  if c.is_scheduled then
    match roomLookup rooms (c.assigned_room.getD "") with
    | none => 500
    | some r =>
      if r.capacity < c.student_count then
        500 * (1 + ((c.student_count : ℚ) - (r.capacity : ℚ)) / 10)
      else 0
  else 0

/-- ConstraintChecker._check_room_capacity: sum of the per-course
contributions (the Python loop accumulates the same sum). -/
def checkRoomCapacity (rooms : List Room) (s : Schedule) : ℚ :=
  (s.courses.map (capPenFull rooms)).sum

/-- Per-course contribution of FastConstraintChecker._fast_room_capacity:
`room_capacity.get(room_id, float('inf'))` makes an unknown room behave
as unlimited capacity, so only known rooms can be penalized. -/
def capPenFast (rooms : List Room) (c : Course) : ℚ :=
  if c.is_scheduled then
    match roomLookup rooms (c.assigned_room.getD "") with
    | none => 0
    | some r =>
      if r.capacity < c.student_count then
        500 * (1 + ((c.student_count : ℚ) - (r.capacity : ℚ)) / 10)
      else 0
  else 0

/-- FastConstraintChecker._fast_room_capacity as a sum over courses. -/
def fastRoomCapacity (rooms : List Room) (s : Schedule) : ℚ :=
  (s.courses.map (capPenFast rooms)).sum

/-- Normalization used by the location-mismatch comparison:
`location.strip().lower()`, written over the character list so that it
evaluates inside the kernel. -/
def normalizeLoc (s : String) : String :=
  String.mk (((s.toList.dropWhile Char.isWhitespace).reverse.dropWhile
    Char.isWhitespace).reverse.map Char.toLower)

/-- Per-course contribution of ConstraintChecker._check_location_mismatch:
50 when the (known) assigned room's location differs from the course's
location after strip/lower normalization. -/
def locPen (rooms : List Room) (c : Course) : ℚ :=
  if c.is_scheduled then
    match roomLookup rooms (c.assigned_room.getD "") with
    | none => 0
    | some r =>
      if normalizeLoc c.location ≠ normalizeLoc r.location then 50 else 0
  else 0

/-- ConstraintChecker._check_location_mismatch as a sum over courses. -/
def checkLocationMismatch (rooms : List Room) (s : Schedule) : ℚ :=
  (s.courses.map (locPen rooms)).sum

/-- ConstraintChecker._check_unscheduled_courses: 2000 per course that is
not fully scheduled. -/
def checkUnscheduled (s : Schedule) : ℚ :=
  2000 * ((s.courses.countP (fun c => ¬ c.is_scheduled)) : ℚ)

/-- Per-course contribution of
ConstraintChecker._check_room_underutilization: for a known room,
utilization below one half is charged 5 * (1 - utilization) * capacity
(a zero-capacity room would raise ZeroDivisionError in Python; the data
model guarantees capacity > 0, and ℚ division by zero collapses the
branch to a zero utilization). -/
def underutilPen (rooms : List Room) (c : Course) : ℚ :=
  if c.is_scheduled then
    match roomLookup rooms (c.assigned_room.getD "") with
    | none => 0
    | some r =>
      let utilization : ℚ :=
        if 0 < r.capacity then (c.student_count : ℚ) / (r.capacity : ℚ) else 0
      if utilization < 1/2 then 5 * (1 - utilization) * (r.capacity : ℚ) else 0
  else 0

/-- ConstraintChecker._check_room_underutilization as a sum over courses. -/
def checkRoomUnderutilization (rooms : List Room) (s : Schedule) : ℚ :=
  (s.courses.map (underutilPen rooms)).sum

/-- ConstraintChecker._check_room_distance_penalty: only courses carrying
two or more sessions can contribute; sessions are never created by the
engines and are not modelled, so the term is identically zero. -/
def checkRoomDistance (_s : Schedule) : ℚ := 0

/-- Gregorian leap-year test, as datetime uses. -/
def isLeapYear (y : Nat) : Bool :=
  y % 4 = 0 && (y % 100 ≠ 0 || y % 400 = 0)

/-- Length of a month, for date validation. -/
def daysInMonth (y m : Nat) : Nat :=
  if m = 2 then (if isLeapYear y then 29 else 28)
  else if m = 4 ∨ m = 6 ∨ m = 9 ∨ m = 11 then 30
  else 31

/-- Month field of strptime "%Y-%m-%d": the regex "1[0-2]|0[1-9]|[1-9]". -/
def parseMonthYMD : List Char → Option (Nat × List Char)
  | [] => none
  | c1 :: rest1 =>
    match rest1 with
    | c2 :: rest2 =>
      if c1 = '1' ∧ '0' ≤ c2 ∧ c2 ≤ '2' then some (10 + digitVal c2, rest2)
      else if c1 = '0' ∧ '1' ≤ c2 ∧ c2 ≤ '9' then some (digitVal c2, rest2)
      else if '1' ≤ c1 ∧ c1 ≤ '9' then some (digitVal c1, rest1)
      else none
    | [] => if '1' ≤ c1 ∧ c1 ≤ '9' then some (digitVal c1, []) else none

/-- Day field of strptime "%Y-%m-%d": the regex
"3[01]|[12]\d|0[1-9]|[1-9]". -/
def parseDayYMD : List Char → Option (Nat × List Char)
  | [] => none
  | c1 :: rest1 =>
    match rest1 with
    | c2 :: rest2 =>
      if c1 = '3' ∧ (c2 = '0' ∨ c2 = '1') then some (30 + digitVal c2, rest2)
      else if (c1 = '1' ∨ c1 = '2') ∧ c2.isDigit then
        some (10 * digitVal c1 + digitVal c2, rest2)
      else if c1 = '0' ∧ '1' ≤ c2 ∧ c2 ≤ '9' then some (digitVal c2, rest2)
      else if '1' ≤ c1 ∧ c1 ≤ '9' then some (digitVal c1, rest1)
      else none
    | [] => if '1' ≤ c1 ∧ c1 ≤ '9' then some (digitVal c1, []) else none

/-- Year field of strptime: exactly four digits. -/
def parseYear4 : List Char → Option (Nat × List Char)
  | a :: b :: c :: d :: rest =>
    if a.isDigit ∧ b.isDigit ∧ c.isDigit ∧ d.isDigit then
      some (1000 * digitVal a + 100 * digitVal b + 10 * digitVal c + digitVal d, rest)
    else none
  | _ => none

/-- Day number of a civil date (days since 1970-01-01), Hinnant's
days-from-civil algorithm; only used as an anchor for weekday/Monday
bucketing. -/
def dayNumberOfYMD (y m d : Nat) : Int :=
  let y' : Int := if m ≤ 2 then (y : Int) - 1 else (y : Int)
  let era : Int := (if 0 ≤ y' then y' else y' - 399) / 400
  let yoe : Int := y' - era * 400
  let mp : Int := ((m : Int) + 9) % 12
  let doy : Int := (153 * mp + 2) / 5 + (d : Int) - 1
  let doe : Int := yoe * 365 + yoe / 4 - yoe / 100 + doy
  era * 146097 + doe - 719468

/-- datetime.strptime(s, "%Y-%m-%d").date() reduced to a day number;
`none` models the ValueError on a malformed string or an invalid
calendar date (month length, year 0). -/
def parseDateYMD (s : String) : Option Int :=
  match parseYear4 s.toList with
  | some (y, rest) =>
    match rest with
    | '-' :: rest2 =>
      match parseMonthYMD rest2 with
      | some (m, rest3) =>
        match rest3 with
        | '-' :: rest4 =>
          match parseDayYMD rest4 with
          | some (d, []) =>
            if 1 ≤ y ∧ d ≤ daysInMonth y m then some (dayNumberOfYMD y m d)
            else none
          | _ => none
        | _ => none
      | none => none
    | _ => none
  | none => none

/-- Monday anchor of the week containing a day number:
`course_date - timedelta(days=course_date.weekday())`; 1970-01-01 was a
Thursday, so the weekday (Monday = 0) is (dayNum + 3) mod 7. -/
def mondayOf (dayNum : Int) : Int := dayNum - (dayNum + 3) % 7

/-- Entries counted by check_proctor_workload_per_week: scheduled courses
with a truthy proctor id and a parseable date, keyed by
(proctor, Monday of week); a ValueError from strptime is swallowed and
the course is skipped. -/
def weeklyEntries (courses : List Course) : List (String × Int) :=
  courses.filterMap (fun c =>
    if c.is_scheduled && strOptTruthy c.assigned_proctor_id then
      match parseDateYMD (c.assigned_date.getD "") with
      | some dn => some (c.assigned_proctor_id.getD "", mondayOf dn)
      | none => none
    else none)

/-- Shared shape of the weekly/daily overload sums: group the entries by
key and charge `weight` for each occurrence beyond the cap. -/
def groupOverloadPenalty {κ : Type} [DecidableEq κ] (cap : Nat) (weight : ℚ)
    (entries : List κ) : ℚ :=
  (entries.eraseDups.map (fun k =>
    let cnt := entries.countP (fun e => e = k)
    if cap < cnt then ((cnt - cap : Nat) : ℚ) * weight else 0)).sum

/-- ConstraintChecker.check_proctor_workload_per_week: 200 per exam above
max_exams_per_week in any (proctor, ISO-Monday-week) bucket. -/
def checkProctorWorkloadPerWeek (maxPerWeek : Nat) (s : Schedule) : ℚ :=
  groupOverloadPenalty maxPerWeek 200 (weeklyEntries s.courses)

/-- Entries counted by check_proctor_workload_per_day: scheduled courses
with a truthy proctor id and a truthy (non-empty) date string, keyed by
(proctor, raw date string). -/
def dailyEntries (courses : List Course) : List (String × String) :=
  courses.filterMap (fun c =>
    if c.is_scheduled && strOptTruthy c.assigned_proctor_id &&
       strOptTruthy c.assigned_date then
      some (c.assigned_proctor_id.getD "", c.assigned_date.getD "")
    else none)

/-- ConstraintChecker.check_proctor_workload_per_day: 100 per exam above
max_exams_per_day in any (proctor, date) bucket. -/
def checkProctorWorkloadPerDay (maxPerDay : Nat) (s : Schedule) : ℚ :=
  groupOverloadPenalty maxPerDay 100 (dailyEntries s.courses)

/-- ConstraintChecker.calculate_total_violation: the sum of the nine rule
penalties, in source order. -/
def calculate_total_violation (rooms : List Room) (maxPerWeek maxPerDay : Nat)
    (s : Schedule) : ℚ :=
  checkRoomConflicts s
  + checkRoomCapacity rooms s
  + checkProctorConflicts s
  + checkLocationMismatch rooms s
  + checkUnscheduled s
  + checkRoomUnderutilization rooms s
  + checkRoomDistance s
  + checkProctorWorkloadPerWeek maxPerWeek s
  + checkProctorWorkloadPerDay maxPerDay s

/-- ConstraintChecker.is_feasible: the three hard-rule totals are zero. -/
def is_feasible (rooms : List Room) (s : Schedule) : Bool :=
  checkRoomConflicts s = 0 ∧ checkRoomCapacity rooms s = 0 ∧
    checkProctorConflicts s = 0

/-- Inner pair scan of the fast conflict checks, threading the memo cache:
only pairs with equal group key reach the cached overlap test, exactly
the pairs Python's per-group double loop examines. -/
def fastPairsCachedInner (e : (String × String) × (String × Int)) :
    List ((String × String) × (String × Int)) → OverlapCache → Nat × OverlapCache
  | [], cache => (0, cache)
  | e2 :: rest, cache =>
    if e2.1 = e.1 then
      let rc := checkOverlapCached cache e.2.1 e.2.2 e2.2.1 e2.2.2
      let rest' := fastPairsCachedInner e rest rc.2
      ((if rc.1 then 1 else 0) + rest'.1, rest'.2)
    else fastPairsCachedInner e rest cache

/-- Outer pair scan of the fast conflict checks with the memo cache. -/
def fastPairsCached : List ((String × String) × (String × Int)) →
    OverlapCache → Nat × OverlapCache
  | [], cache => (0, cache)
  | e :: rest, cache =>
    let inner := fastPairsCachedInner e rest cache
    let outer := fastPairsCached rest inner.2
    (inner.1 + outer.1, outer.2)

/-- FastConstraintChecker.calculate_fast with its memo cache threaded
through: room conflicts, then capacity, then proctor conflicts. -/
def calculate_fast (rooms : List Room) (s : Schedule) (cache : OverlapCache) :
    ℚ × OverlapCache :=
  let room := fastPairsCached (roomEntries s.courses) cache
  let capacity := fastRoomCapacity rooms s
  let proctor := fastPairsCached (proctorEntries s.courses) room.2
  (1000 * (room.1 : ℚ) + capacity + 1000 * (proctor.1 : ℚ), proctor.2)

/-- Cache-free value of FastConstraintChecker.calculate_fast; the memo
cache is observationally transparent (theorem fastPairsCached_sound), so
the solver loops are modelled against this function. -/
def calculate_fast_pure (rooms : List Room) (s : Schedule) : ℚ :=
  1000 * (countConflictPairs (roomEntries s.courses) : ℚ)
  + fastRoomCapacity rooms s
  + 1000 * (countConflictPairs (proctorEntries s.courses) : ℚ)

/-! ## Soundness of the overlap memo cache -/

theorem checkOverlapCached_sound (cache : OverlapCache) (t1 : String) (d1 : Int)
    (t2 : String) (d2 : Int) (h : CacheSound cache) :
    (checkOverlapCached cache t1 d1 t2 d2).1 = checkOverlap t1 d1 t2 d2 ∧
      CacheSound (checkOverlapCached cache t1 d1 t2 d2).2 := by
  simp only [checkOverlapCached]
  cases hl : cacheLookup cache (t1, d1, t2, d2) with
  | none =>
    refine ⟨rfl, ?_⟩
    rintro u1 e1 u2 e2 b hb
    rw [List.mem_cons] at hb
    rcases hb with hb | hb
    · simp only [Prod.mk.injEq] at hb
      obtain ⟨⟨q1, q2, q3, q4⟩, hv⟩ := hb
      subst q1; subst q2; subst q3; subst q4
      exact hv
    · exact h u1 e1 u2 e2 b hb
  | some b =>
    refine ⟨?_, h⟩
    unfold cacheLookup at hl
    cases hf : cache.find? (fun e => e.1 = (t1, d1, t2, d2)) with
    | none => rw [hf] at hl; exact absurd hl (by simp)
    | some e =>
      rw [hf] at hl
      simp only [Option.map_some'] at hl
      have hmem := List.mem_of_find?_eq_some hf
      have hkey : e.1 = (t1, d1, t2, d2) := by
        have := List.find?_some hf
        simpa using this
      have hb2 : e.2 = b := by injection hl
      have hc := h t1 d1 t2 d2 e.2 (by rw [← hkey]; simpa using hmem)
      rw [← hb2]; exact hc

theorem fastPairsCachedInner_sound (e : (String × String) × (String × Int))
    (l : List ((String × String) × (String × Int))) (cache : OverlapCache)
    (h : CacheSound cache) :
    (fastPairsCachedInner e l cache).1 =
      l.countP (fun e2 =>
        decide (e2.1 = e.1) && checkOverlap e.2.1 e.2.2 e2.2.1 e2.2.2) ∧
      CacheSound (fastPairsCachedInner e l cache).2 := by
  induction l generalizing cache with
  | nil => exact ⟨rfl, h⟩
  | cons e2 rest ih =>
    simp only [fastPairsCachedInner]
    by_cases hk : e2.1 = e.1
    · rw [if_pos hk]
      obtain ⟨hv, hs⟩ := checkOverlapCached_sound cache e.2.1 e.2.2 e2.2.1 e2.2.2 h
      obtain ⟨ihv, ihs⟩ := ih _ hs
      refine ⟨?_, ihs⟩
      rw [List.countP_cons, ihv, hv]
      simp [hk, Nat.add_comm]
    · rw [if_neg hk]
      obtain ⟨ihv, ihs⟩ := ih _ h
      refine ⟨?_, ihs⟩
      rw [List.countP_cons, ihv]
      simp [hk]

theorem fastPairsCached_sound (l : List ((String × String) × (String × Int)))
    (cache : OverlapCache) (h : CacheSound cache) :
    (fastPairsCached l cache).1 = countConflictPairs l ∧
      CacheSound (fastPairsCached l cache).2 := by
  induction l generalizing cache with
  | nil => exact ⟨rfl, h⟩
  | cons e rest ih =>
    simp only [fastPairsCached, countConflictPairs]
    obtain ⟨hv, hs⟩ := fastPairsCachedInner_sound e rest cache h
    obtain ⟨ihv, ihs⟩ := ih _ hs
    exact ⟨by rw [hv, ihv], ihs⟩

/-- The memoized calculate_fast agrees with its cache-free value and
preserves cache soundness; the cache starts empty (sound) at checker
construction, so every evaluation in a run returns the pure value. -/
theorem calculate_fast_eq_pure (rooms : List Room) (s : Schedule)
    (cache : OverlapCache) (h : CacheSound cache) :
    (calculate_fast rooms s cache).1 = calculate_fast_pure rooms s ∧
      CacheSound (calculate_fast rooms s cache).2 := by
  simp only [calculate_fast, calculate_fast_pure]
  obtain ⟨hv1, hs1⟩ := fastPairsCached_sound (roomEntries s.courses) cache h
  obtain ⟨hv2, hs2⟩ := fastPairsCached_sound (proctorEntries s.courses) _ hs1
  exact ⟨by rw [hv1, hv2], hs2⟩

/-- On courses whose assigned room is known to the checker, the full and
fast per-course capacity penalties coincide. -/
theorem capPen_eq_of_known (rooms : List Room) (c : Course)
    (h : c.is_scheduled → (roomLookup rooms (c.assigned_room.getD "")).isSome) :
    capPenFull rooms c = capPenFast rooms c := by
  unfold capPenFull capPenFast
  by_cases hs : c.is_scheduled
  · rw [if_pos hs, if_pos hs]
    cases hr : roomLookup rooms (c.assigned_room.getD "") with
    | none => rw [hr] at h; exact absurd (h hs) (by simp)
    | some r => rfl
  · rw [if_neg hs, if_neg hs]

/-! ## Claim C6: the time-overlap test -/

/-- C6: for well-formed "HH:MM" start times the overlap test decides the
half-open interval intersection start1 < start2 + dur2 AND
start2 < start1 + dur1 (endpoint equality is not an overlap); the test
is symmetric in its two (time, duration) arguments for all inputs; and
the fast model's memoized variant computes the same relation as the full
model's uncached one (and keeps its cache sound). -/
theorem C6_overlap_test_correct :
    (∀ (t1 t2 : String) (d1 d2 : Int) (m1 m2 : Nat),
        parseTimeHM t1 = some m1 → parseTimeHM t2 = some m2 →
        (checkOverlap t1 d1 t2 d2 = true ↔
          ((m1 : Int) < (m2 : Int) + d2 ∧ (m2 : Int) < (m1 : Int) + d1))) ∧
    (∀ (t1 t2 : String) (d1 d2 : Int),
        checkOverlap t1 d1 t2 d2 = checkOverlap t2 d2 t1 d1) ∧
    (∀ (cache : OverlapCache) (t1 t2 : String) (d1 d2 : Int), CacheSound cache →
        (checkOverlapCached cache t1 d1 t2 d2).1 = checkOverlap t1 d1 t2 d2 ∧
          CacheSound (checkOverlapCached cache t1 d1 t2 d2).2) := by
  refine ⟨?_, ?_, ?_⟩
  · intro t1 t2 d1 d2 m1 m2 h1 h2
    simp [checkOverlap, h1, h2]
  · intro t1 t2 d1 d2
    unfold checkOverlap
    cases parseTimeHM t1 <;> cases parseTimeHM t2 <;> simp
    exact Bool.and_comm _ _
  · intro cache t1 t2 d1 d2 h
    exact checkOverlapCached_sound cache t1 d1 t2 d2 h

/-- Witness for C6 at the spec's boundary examples: [9:00, 9:00+60) and
[10:00, 10:00+30) do not overlap, [9:00, 9:00+90) and [10:00, 10:00+30) do. -/
theorem C6_overlap_test_correct_witness :
    parseTimeHM "09:00" = some 540 ∧ parseTimeHM "10:00" = some 600 ∧
    (checkOverlap "09:00" 90 "10:00" 30 = true ↔
      ((540 : Int) < (600 : Int) + 30 ∧ (600 : Int) < (540 : Int) + 90)) ∧
    checkOverlap "09:00" 90 "10:00" 30 = true ∧
    checkOverlap "09:00" 60 "10:00" 30 = false :=
  ⟨by decide, by decide,
   C6_overlap_test_correct.1 "09:00" "10:00" 90 30 540 600 (by decide) (by decide),
   by decide, by decide⟩

/-! ## Claim C9: malformed strings never abort the penalty computation -/

/-- C9: an unparseable "HH:MM" start time on either side makes the
overlap test return false rather than raise, and a course whose
assigned_date fails to parse as "YYYY-MM-DD" is skipped by the weekly
proctor-workload check, leaving the returned total the same as if the
course were absent. -/
theorem C9_parse_failure_recovery :
    (∀ (t1 t2 : String) (d1 d2 : Int), parseTimeHM t1 = none →
        checkOverlap t1 d1 t2 d2 = false) ∧
    (∀ (t1 t2 : String) (d1 d2 : Int), parseTimeHM t2 = none →
        checkOverlap t1 d1 t2 d2 = false) ∧
    (∀ (maxW : Nat) (l1 l2 : List Course) (c : Course) (ds : String),
        c.assigned_date = some ds → parseDateYMD ds = none →
        checkProctorWorkloadPerWeek maxW { courses := l1 ++ c :: l2 } =
          checkProctorWorkloadPerWeek maxW { courses := l1 ++ l2 }) := by
  refine ⟨?_, ?_, ?_⟩
  · intro t1 t2 d1 d2 h
    unfold checkOverlap
    rw [h]
  · intro t1 t2 d1 d2 h
    unfold checkOverlap
    rw [h]
    cases parseTimeHM t1 <;> rfl
  · intro maxW l1 l2 c ds hd hp
    have hfc : (if c.is_scheduled && strOptTruthy c.assigned_proctor_id then
        match parseDateYMD (c.assigned_date.getD "") with
        | some dn => some (c.assigned_proctor_id.getD "", mondayOf dn)
        | none => none
      else none) = none := by
      cases hcnd : (c.is_scheduled && strOptTruthy c.assigned_proctor_id) <;>
        simp [hcnd, hd, hp]
    have hw : weeklyEntries (l1 ++ c :: l2) = weeklyEntries (l1 ++ l2) := by
      unfold weeklyEntries
      rw [List.filterMap_append, List.filterMap_append, List.filterMap_cons, hfc]
    simp only [checkProctorWorkloadPerWeek]
    rw [hw]

/-- Course used by the C9 witness: fully scheduled with a proctor but an
invalid calendar date (February 30th). -/
def exBadDateCourse : Course :=
  { course_id := "X1", name := "X", location := "A", exam_format := "w",
    student_count := 10, assigned_date := some "2025-02-30",
    assigned_time := some "07:30", assigned_room := some "R1",
    assigned_proctor_id := some "P1" }

/-- Witness for C9: a malformed time string and an invalid date on a
fully scheduled proctored course. -/
theorem C9_parse_failure_recovery_witness :
    parseTimeHM "99:99" = none ∧
    checkOverlap "99:99" 60 "10:00" 30 = false ∧
    parseDateYMD "2025-02-30" = none ∧
    checkProctorWorkloadPerWeek 5 { courses := [] ++ exBadDateCourse :: [] } =
      checkProctorWorkloadPerWeek 5 { courses := ([] : List Course) ++ [] } :=
  ⟨by decide,
   C9_parse_failure_recovery.1 "99:99" "10:00" 60 30 (by decide),
   by decide,
   C9_parse_failure_recovery.2.2 5 [] [] exBadDateCourse "2025-02-30" rfl (by decide)⟩

/-! ## Claim C7: overcapacity penalty shape and scaling -/

/-- C7: a scheduled course in a known room contributes
500 * (1 + overflow / 10) to the capacity penalty when it overflows and
nothing otherwise; the contribution is strictly positive on overflow and
strictly increasing in the overflow amount, identically in the full and
the fast model. -/
theorem C7_overcapacity_penalty :
    ∀ (rooms : List Room) (l1 l2 : List Course) (c : Course) (r : Room),
      c.is_scheduled = true →
      roomLookup rooms (c.assigned_room.getD "") = some r →
      (checkRoomCapacity rooms { courses := l1 ++ c :: l2 } =
          checkRoomCapacity rooms { courses := l1 ++ l2 } +
          (if r.capacity < c.student_count then
            500 * (1 + ((c.student_count : ℚ) - (r.capacity : ℚ)) / 10) else 0)) ∧
      (fastRoomCapacity rooms { courses := l1 ++ c :: l2 } =
          fastRoomCapacity rooms { courses := l1 ++ l2 } +
          (if r.capacity < c.student_count then
            500 * (1 + ((c.student_count : ℚ) - (r.capacity : ℚ)) / 10) else 0)) ∧
      (r.capacity < c.student_count → 0 < capPenFull rooms c) ∧
      (∀ n1 n2 : Nat, r.capacity < n1 → n1 < n2 →
          capPenFull rooms { c with student_count := n1 } <
            capPenFull rooms { c with student_count := n2 }) ∧
      capPenFull rooms c = capPenFast rooms c := by
  intro rooms l1 l2 c r hs hr
  have hpenFull : capPenFull rooms c =
      (if r.capacity < c.student_count then
        500 * (1 + ((c.student_count : ℚ) - (r.capacity : ℚ)) / 10) else 0) := by
    unfold capPenFull
    rw [if_pos hs, hr]
  have hpenFast : capPenFast rooms c =
      (if r.capacity < c.student_count then
        500 * (1 + ((c.student_count : ℚ) - (r.capacity : ℚ)) / 10) else 0) := by
    unfold capPenFast
    rw [if_pos hs, hr]
  refine ⟨?_, ?_, ?_, ?_, ?_⟩
  · simp only [checkRoomCapacity, List.map_append, List.sum_append,
      List.map_cons, List.sum_cons, hpenFull]
    ring
  · simp only [fastRoomCapacity, List.map_append, List.sum_append,
      List.map_cons, List.sum_cons, hpenFast]
    ring
  · intro hover
    rw [hpenFull, if_pos hover]
    have hlt : (r.capacity : ℚ) < (c.student_count : ℚ) := by exact_mod_cast hover
    have hq : (0 : ℚ) < ((c.student_count : ℚ) - (r.capacity : ℚ)) / 10 := by
      apply div_pos <;> linarith
    nlinarith
  · intro n1 n2 h1 h2
    have haux : ∀ n : Nat, r.capacity < n →
        capPenFull rooms { c with student_count := n } =
          500 * (1 + ((n : ℚ) - (r.capacity : ℚ)) / 10) := by
      intro n hn
      have hs' : ({ c with student_count := n } : Course).is_scheduled = true := hs
      have hr' : roomLookup rooms
          (({ c with student_count := n } : Course).assigned_room.getD "") = some r := hr
      unfold capPenFull
      rw [if_pos hs', hr']
      show (if r.capacity < n then
          500 * (1 + ((n : ℚ) - (r.capacity : ℚ)) / 10) else 0) =
        500 * (1 + ((n : ℚ) - (r.capacity : ℚ)) / 10)
      rw [if_pos hn]
    rw [haux n1 h1, haux n2 (h1.trans h2)]
    have hlt : (n1 : ℚ) < (n2 : ℚ) := by exact_mod_cast h2
    linarith
  · exact capPen_eq_of_known rooms c (fun _ => by rw [hr]; rfl)

/-- Room used by the C7 witness: capacity 50 at location "A". -/
def exRoom50 : Room := { room_id := "R", capacity := 50, location := "A" }

/-- Scheduled course template used by the C7 witness. -/
def exCourseIn50 (n : Nat) : Course :=
  { course_id := "CAP", name := "Cap", location := "A", exam_format := "w",
    student_count := n, assigned_date := some "2025-06-02",
    assigned_time := some "07:30", assigned_room := some "R" }

/-- Witness for C7 at the spec's example: 40 students in the 50-capacity
room cost nothing, 51 cost strictly more than zero, 55 strictly more
than 51. -/
theorem C7_overcapacity_penalty_witness :
    capPenFull [exRoom50] (exCourseIn50 40) = 0 ∧
    (0 : ℚ) < capPenFull [exRoom50] (exCourseIn50 51) ∧
    capPenFull [exRoom50] { exCourseIn50 51 with student_count := 51 } <
      capPenFull [exRoom50] { exCourseIn50 51 with student_count := 55 } ∧
    capPenFull [exRoom50] (exCourseIn50 51) = capPenFast [exRoom50] (exCourseIn50 51) :=
  have hlk : roomLookup [{ room_id := "R", capacity := 50, location := "A" }] "R" =
      some { room_id := "R", capacity := 50, location := "A" } := by decide
  ⟨by norm_num [capPenFull, hlk, exCourseIn50, exRoom50, Course.is_scheduled],
   (C7_overcapacity_penalty [exRoom50] [] [] (exCourseIn50 51) exRoom50
      (by decide) (by decide)).2.2.1 (by decide),
   (C7_overcapacity_penalty [exRoom50] [] [] (exCourseIn50 51) exRoom50
      (by decide) (by decide)).2.2.2.1 51 55 (by decide) (by decide),
   (C7_overcapacity_penalty [exRoom50] [] [] (exCourseIn50 51) exRoom50
      (by decide) (by decide)).2.2.2.2⟩

/-! ## Claim C10: unknown rooms in the two capacity checks -/

/-- Scheduled course assigned to a room id absent from the checker's
room list. -/
def exUnknownRoomCourse : Course :=
  { course_id := "U1", name := "U", location := "A", exam_format := "w",
    student_count := 7, assigned_date := some "2025-06-03",
    assigned_time := some "09:30", assigned_room := some "ZZ" }

/-- C10: a scheduled course whose room is unknown to the checker adds a
flat 500 to the full model's capacity penalty regardless of its student
count, adds nothing to the fast model's, and on a concrete such course
with no soft violation the two totals disagree. -/
theorem C10_unknown_room_divergence :
    (∀ (rooms : List Room) (l1 l2 : List Course) (c : Course),
      c.is_scheduled = true →
      roomLookup rooms (c.assigned_room.getD "") = none →
      checkRoomCapacity rooms { courses := l1 ++ c :: l2 } =
          checkRoomCapacity rooms { courses := l1 ++ l2 } + 500 ∧
      fastRoomCapacity rooms { courses := l1 ++ c :: l2 } =
          fastRoomCapacity rooms { courses := l1 ++ l2 }) ∧
    (checkLocationMismatch [{ room_id := "A1", capacity := 30, location := "A" }]
        { courses := [exUnknownRoomCourse] } = 0 ∧
     checkUnscheduled { courses := [exUnknownRoomCourse] } = 0 ∧
     checkRoomUnderutilization [{ room_id := "A1", capacity := 30, location := "A" }]
        { courses := [exUnknownRoomCourse] } = 0 ∧
     checkProctorWorkloadPerWeek 5 { courses := [exUnknownRoomCourse] } = 0 ∧
     checkProctorWorkloadPerDay 3 { courses := [exUnknownRoomCourse] } = 0 ∧
     calculate_total_violation [{ room_id := "A1", capacity := 30, location := "A" }]
        5 3 { courses := [exUnknownRoomCourse] } = 500 ∧
     calculate_fast_pure [{ room_id := "A1", capacity := 30, location := "A" }]
        { courses := [exUnknownRoomCourse] } = 0) := by
  constructor
  · intro rooms l1 l2 c hs hr
    have hfull : capPenFull rooms c = 500 := by
      unfold capPenFull
      rw [if_pos hs, hr]
    have hfast : capPenFast rooms c = 0 := by
      unfold capPenFast
      rw [if_pos hs, hr]
    constructor
    · simp only [checkRoomCapacity, List.map_append, List.sum_append,
        List.map_cons, List.sum_cons, hfull]
      ring
    · simp only [fastRoomCapacity, List.map_append, List.sum_append,
        List.map_cons, List.sum_cons, hfast]
      ring
  · have hlk : roomLookup [{ room_id := "A1", capacity := 30, location := "A" }] "ZZ" =
        none := by decide
    refine ⟨?_, ?_, ?_, ?_, ?_, ?_, ?_⟩ <;>
      norm_num [calculate_total_violation, calculate_fast_pure, checkRoomConflicts,
        checkProctorConflicts, checkRoomCapacity, fastRoomCapacity,
        checkLocationMismatch, checkUnscheduled, checkRoomUnderutilization,
        checkRoomDistance, checkProctorWorkloadPerWeek, checkProctorWorkloadPerDay,
        groupOverloadPenalty, weeklyEntries, dailyEntries, roomEntries,
        proctorEntries, countConflictPairs, capPenFull, capPenFast, locPen,
        underutilPen, hlk, exUnknownRoomCourse, Course.is_scheduled, strOptTruthy,
        List.filterMap, List.countP, List.countP.go, List.eraseDups]

/-- Witness for C10's universally quantified part at a concrete course
and room list. -/
theorem C10_unknown_room_divergence_witness :
    checkRoomCapacity [{ room_id := "A1", capacity := 30, location := "A" }]
        { courses := [] ++ exUnknownRoomCourse :: [] } =
      checkRoomCapacity [{ room_id := "A1", capacity := 30, location := "A" }]
        { courses := [] ++ [] } + 500 ∧
    fastRoomCapacity [{ room_id := "A1", capacity := 30, location := "A" }]
        { courses := [] ++ exUnknownRoomCourse :: [] } =
      fastRoomCapacity [{ room_id := "A1", capacity := 30, location := "A" }]
        { courses := [] ++ [] } :=
  C10_unknown_room_divergence.1 _ [] [] exUnknownRoomCourse (by decide) (by decide)

/-! ## Claim C2: fast versus full model on soft-violation-free schedules -/

/-- Scheduled course used to refute C2 as stated: no soft rule is
violated, but its assigned room is unknown to the checker. -/
def exSoftFreeUnknownRoom : Course :=
  { course_id := "S1", name := "S", location := "B", exam_format := "w",
    student_count := 10, assigned_date := some "2025-06-02",
    assigned_time := some "09:30", assigned_room := some "R9" }

/-- Counterexample to C2 as stated: on this schedule every soft penalty
term of the full model is zero, yet the full total is 500 (flat
unknown-room charge, booked under the hard capacity rule) while the fast
model returns 0. -/
theorem C2_counterexample :
    checkLocationMismatch [] { courses := [exSoftFreeUnknownRoom] } = 0 ∧
    checkUnscheduled { courses := [exSoftFreeUnknownRoom] } = 0 ∧
    checkRoomUnderutilization [] { courses := [exSoftFreeUnknownRoom] } = 0 ∧
    checkRoomDistance { courses := [exSoftFreeUnknownRoom] } = 0 ∧
    checkProctorWorkloadPerWeek 5 { courses := [exSoftFreeUnknownRoom] } = 0 ∧
    checkProctorWorkloadPerDay 3 { courses := [exSoftFreeUnknownRoom] } = 0 ∧
    calculate_total_violation [] 5 3 { courses := [exSoftFreeUnknownRoom] } = 500 ∧
    calculate_fast_pure [] { courses := [exSoftFreeUnknownRoom] } = 0 ∧
    calculate_total_violation [] 5 3 { courses := [exSoftFreeUnknownRoom] } ≠
      calculate_fast_pure [] { courses := [exSoftFreeUnknownRoom] } := by
  have hlk : roomLookup [] "R9" = none := by decide
  refine ⟨?_, ?_, ?_, ?_, ?_, ?_, ?_, ?_, ?_⟩ <;>
    norm_num [calculate_total_violation, calculate_fast_pure, checkRoomConflicts,
      checkProctorConflicts, checkRoomCapacity, fastRoomCapacity,
      checkLocationMismatch, checkUnscheduled, checkRoomUnderutilization,
      checkRoomDistance, checkProctorWorkloadPerWeek, checkProctorWorkloadPerDay,
      groupOverloadPenalty, weeklyEntries, dailyEntries, roomEntries,
      proctorEntries, countConflictPairs, capPenFull, capPenFast, locPen,
      underutilPen, hlk, exSoftFreeUnknownRoom, Course.is_scheduled, strOptTruthy,
      List.filterMap, List.countP, List.countP.go, List.eraseDups]

/-- C2 amended: on a schedule with all soft penalty terms zero AND every
scheduled course assigned to a room the checker knows, the fast model
(both as the cache-free value and the memoized computation from any
sound cache) returns exactly the full model's total. -/
theorem C2_fast_full_amended :
    ∀ (rooms : List Room) (maxW maxD : Nat) (s : Schedule),
      checkLocationMismatch rooms s = 0 →
      checkUnscheduled s = 0 →
      checkRoomUnderutilization rooms s = 0 →
      checkRoomDistance s = 0 →
      checkProctorWorkloadPerWeek maxW s = 0 →
      checkProctorWorkloadPerDay maxD s = 0 →
      (∀ c ∈ s.courses, c.is_scheduled →
        (roomLookup rooms (c.assigned_room.getD "")).isSome) →
      calculate_fast_pure rooms s = calculate_total_violation rooms maxW maxD s ∧
      ∀ cache, CacheSound cache →
        (calculate_fast rooms s cache).1 =
          calculate_total_violation rooms maxW maxD s := by
  intro rooms maxW maxD s hloc huns huu hdist hw hd hknown
  have hcap : checkRoomCapacity rooms s = fastRoomCapacity rooms s := by
    unfold checkRoomCapacity fastRoomCapacity
    exact congrArg List.sum
      (List.map_congr_left (fun c hc => capPen_eq_of_known rooms c (hknown c hc)))
  have hmain :
      calculate_fast_pure rooms s = calculate_total_violation rooms maxW maxD s := by
    unfold calculate_total_violation calculate_fast_pure
    rw [hloc, huns, huu, hdist, hw, hd, hcap]
    unfold checkRoomConflicts checkProctorConflicts
    ring
  refine ⟨hmain, ?_⟩
  intro cache hsound
  rw [(calculate_fast_eq_pure rooms s cache hsound).1, hmain]

/-- Overload buckets cannot be exceeded when there are no more entries
than the cap, so the grouped penalty is zero. -/
theorem groupOverloadPenalty_eq_zero {k : Type} [DecidableEq k] (cap : Nat)
    (weight : ℚ) (entries : List k) (h : entries.length ≤ cap) :
    groupOverloadPenalty cap weight entries = 0 := by
  unfold groupOverloadPenalty
  apply List.sum_eq_zero
  intro x hx
  rw [List.mem_map] at hx
  obtain ⟨key, _, rfl⟩ := hx
  rw [if_neg]
  intro hcnt
  have hle : List.countP (fun e => decide (e = key)) entries ≤ entries.length :=
    List.countP_le_length _
  omega

/-- Room and course used by the C2 witness: a soft-violation-free,
known-room schedule on which fast and full totals coincide. -/
def exKnownRoomCourse : Course :=
  { course_id := "K1", name := "K", location := "A", exam_format := "w",
    student_count := 20, assigned_date := some "2025-06-02",
    assigned_time := some "07:30", assigned_room := some "R1",
    assigned_proctor_id := some "P1" }

/-- Witness for the amended C2 on a concrete schedule. -/
theorem C2_fast_full_amended_witness :
    calculate_fast_pure [{ room_id := "R1", capacity := 30, location := "A" }]
        { courses := [exKnownRoomCourse] } =
      calculate_total_violation [{ room_id := "R1", capacity := 30, location := "A" }]
        5 3 { courses := [exKnownRoomCourse] } :=
  have hlk : roomLookup [{ room_id := "R1", capacity := 30, location := "A" }] "R1" =
      some { room_id := "R1", capacity := 30, location := "A" } := by decide
  (C2_fast_full_amended [{ room_id := "R1", capacity := 30, location := "A" }] 5 3
    { courses := [exKnownRoomCourse] }
    (by norm_num [checkLocationMismatch, locPen, hlk, exKnownRoomCourse,
      Course.is_scheduled, normalizeLoc])
    (by norm_num [checkUnscheduled, exKnownRoomCourse, Course.is_scheduled,
      List.countP, List.countP.go])
    (by norm_num [checkRoomUnderutilization, underutilPen, hlk, exKnownRoomCourse,
      Course.is_scheduled])
    rfl
    (groupOverloadPenalty_eq_zero 5 200 _ (by decide))
    (groupOverloadPenalty_eq_zero 3 100 _ (by decide))
    (by intro c hc hs
        simp only [List.mem_singleton] at hc
        subst hc
        rw [show (exKnownRoomCourse.assigned_room.getD "") = "R1" from rfl, hlk]
        rfl)).1

/-! ## Claim C5: course preparation splits oversized courses -/

/-- max((room.capacity for room in rooms), default=100) from
BaseSolver._prepare_courses_with_sessions. -/
def maxCapacity (rooms : List Room) : Nat :=
  match (rooms.map (·.capacity)).max? with
  | some m => m
  | none => 100

/-- Sibling course created by
BaseSolver._split_course_into_multiple_courses for loop index i: id
suffixed _C(i+1), note annotated, student_count set to the session size;
the assignment fields, is_locked and duration are NOT copied (fresh
Course defaults). -/
def mkSplit (c : Course) (i s : Nat) : Course :=
  { course_id := c.course_id ++ "_C" ++ toString (i + 1),
    name := c.name, location := c.location, exam_format := c.exam_format,
    note := if c.note ≠ "" then c.note ++ " (Ca " ++ toString (i + 1) ++ ")"
            else "Ca " ++ toString (i + 1),
    student_count := s }

/-- Allocation loop of _split_course_into_multiple_courses: at index i,
plan per + 1 students for the first rem sessions, clamp by max capacity
and by the students still unallocated, and skip empty sessions. Returns
the created courses and the final unallocated count. -/
def splitAux (c : Course) (per rem mc : Nat) :
    Nat → Nat → Nat → List Course × Nat
  | _, 0, remaining => ([], remaining)
  | i, fuel + 1, remaining =>
    let s0 := per + (if i < rem then 1 else 0)
    let s := min (min s0 mc) remaining
    if 0 < s then
      let d := splitAux c per rem mc (i + 1) fuel (remaining - s)
      (mkSplit c i s :: d.1, d.2)
    else
      splitAux c per rem mc (i + 1) fuel remaining

/-- Post-loop fix-up `split_courses[-1].student_count += remaining`. -/
def addToLast : List Course → Nat → List Course
  | [], _ => []
  | [c], extra => [{ c with student_count := c.student_count + extra }]
  | c :: rest, extra => c :: addToLast rest extra

/-- BaseSolver._split_course_into_multiple_courses: number of sessions is
ceil(student_count / max_capacity) (at least 1), students are divided
evenly with the remainder going to the first sessions. -/
def splitCourseIntoMultipleCourses (c : Course) (mc : Nat) : List Course :=
  let n0 := (c.student_count + mc - 1) / mc
  let n := if n0 < 1 then 1 else n0
  let per := c.student_count / n
  let rem := c.student_count % n
  let r := splitAux c per rem mc 0 n c.student_count
  if 0 < r.2 ∧ r.1 ≠ [] then addToLast r.1 r.2 else r.1

/-- Rooms at the course's location that can hold all of its students
(the `suitable_rooms` filter of _prepare_courses_with_sessions). -/
def suitableRoomsFor (rooms : List Room) (c : Course) : List Room :=
  rooms.filter (fun r => r.location = c.location ∧ c.student_count ≤ r.capacity)

/-- Course.needs_splitting: student_count exceeds the given capacity. -/
def Course.needs_splitting (c : Course) (mc : Nat) : Bool :=
  mc < c.student_count

/-- BaseSolver._prepare_courses_with_sessions: split every course that
needs splitting or has no suitable room, keep the others unchanged. -/
def prepareCoursesWithSessions (rooms : List Room) (courses : List Course)
    (auto_split : Bool) : List Course :=
  if ¬ auto_split then courses
  else
    courses.flatMap (fun c =>
      if c.needs_splitting (maxCapacity rooms) ||
          (suitableRoomsFor rooms c).isEmpty then
        splitCourseIntoMultipleCourses c (maxCapacity rooms)
      else [c])

/-- Sum of the planned allocations per + [t < rem]. -/
theorem sumAlloc (n per rem : Nat) :
    ((List.range n).map (fun t => per + if t < rem then 1 else 0)).sum =
      n * per + min rem n := by
  induction n with
  | zero => simp
  | succ n ih =>
    rw [List.range_succ, List.map_append, List.sum_append]
    simp only [List.map_cons, List.map_nil, List.sum_cons, List.sum_nil, ih]
    by_cases h : n < rem
    · rw [if_pos h, Nat.min_eq_right (Nat.le_of_lt h), Nat.min_eq_right h,
        Nat.succ_mul, Nat.succ_eq_add_one]
      ring
    · rw [if_neg h, Nat.min_eq_left (Nat.le_of_not_lt h),
        Nat.min_eq_left (Nat.le_of_not_lt h |>.trans (Nat.le_succ n)),
        Nat.succ_mul]
      ring

/-- The allocation loop, under in-bounds planned sizes that exactly
exhaust the remaining students, creates one course per index with
exactly the planned size and ends with zero students unallocated. -/
theorem splitAux_spec (c : Course) (per rem mc : Nat) :
    ∀ (fuel i remaining : Nat),
      (∀ t, t < fuel →
        1 ≤ per + (if i + t < rem then 1 else 0) ∧
        per + (if i + t < rem then 1 else 0) ≤ mc) →
      remaining =
        ((List.range fuel).map (fun t => per + if i + t < rem then 1 else 0)).sum →
      splitAux c per rem mc i fuel remaining =
        (((List.range fuel).map
          (fun t => mkSplit c (i + t) (per + if i + t < rem then 1 else 0))), 0) := by
  intro fuel
  induction fuel with
  | zero =>
    intro i remaining _ hrem
    simp only [List.range_zero, List.map_nil, List.sum_nil] at hrem
    subst hrem
    rfl
  | succ fuel ih =>
    intro i remaining hbound hrem
    have hshift : ∀ (f : Nat → Nat),
        (List.range (fuel + 1)).map (fun t => f (i + t)) =
          f i :: (List.range fuel).map (fun t => f (i + 1 + t)) := by
      intro f
      rw [List.range_succ_eq_map, List.map_cons, List.map_map]
      simp only [Nat.add_zero]
      congr 1
      apply List.map_congr_left
      intro t _
      simp only [Function.comp_apply]
      congr 1
      omega
    have halloc : ∀ t, i + t < rem ↔ t < rem - i ∨ (i + t < rem) := by
      intro t; omega
    have hb0 := hbound 0 (Nat.succ_pos fuel)
    simp only [Nat.add_zero] at hb0
    have hrem' : remaining =
        (per + if i < rem then 1 else 0) +
          ((List.range fuel).map
            (fun t => per + if i + 1 + t < rem then 1 else 0)).sum := by
      rw [hrem, hshift (fun j => per + if j < rem then 1 else 0)]
      simp
    simp only [splitAux]
    have hs0mc : min (per + if i < rem then 1 else 0) mc =
        (per + if i < rem then 1 else 0) := Nat.min_eq_left hb0.2
    have hs0rem : min (per + if i < rem then 1 else 0) remaining =
        (per + if i < rem then 1 else 0) := by
      apply Nat.min_eq_left
      rw [hrem']
      exact Nat.le_add_right _ _
    rw [hs0mc, hs0rem, if_pos (Nat.lt_of_lt_of_le Nat.zero_lt_one hb0.1)]
    have hrec := ih (i + 1) (remaining - (per + if i < rem then 1 else 0))
      (fun t ht => by
        have := hbound (t + 1) (by omega)
        constructor
        · have h1 := this.1
          have : i + (t + 1) = i + 1 + t := by omega
          rw [this] at h1
          exact h1
        · have h2 := this.2
          have : i + (t + 1) = i + 1 + t := by omega
          rw [this] at h2
          exact h2)
      (by rw [hrem']; omega)
    have hmk : (List.range (fuel + 1)).map
        (fun t => mkSplit c (i + t) (per + if i + t < rem then 1 else 0)) =
        mkSplit c i (per + if i < rem then 1 else 0) ::
          (List.range fuel).map
            (fun t => mkSplit c (i + 1 + t) (per + if i + 1 + t < rem then 1 else 0)) := by
      rw [List.range_succ_eq_map, List.map_cons, List.map_map]
      simp only [Nat.add_zero]
      congr 1
      apply List.map_congr_left
      intro t _
      simp only [Function.comp_apply]
      have : i + (t + 1) = i + 1 + t := by omega
      rw [this]
    rw [hrec, hmk]

/-- Arithmetic facts about the ceiling session count
n = ceil(sc / mc) = (sc + mc - 1) / mc. -/
theorem split_arith (sc mc : Nat) (hmc : 1 ≤ mc) (hsc : 1 ≤ sc) :
    1 ≤ (sc + mc - 1) / mc ∧ (sc + mc - 1) / mc ≤ sc ∧
      sc ≤ ((sc + mc - 1) / mc) * mc := by
  refine ⟨?_, ?_, ?_⟩
  · rw [Nat.one_le_div_iff hmc]
    omega
  · rw [Nat.div_le_iff_le_mul_add_pred hmc]
    have h := Nat.le_mul_of_pos_right sc hmc
    have h2 : mc * sc = sc * mc := Nat.mul_comm mc sc
    omega
  · have h := Nat.lt_div_mul_add (a := sc + mc - 1) hmc
    generalize (sc + mc - 1) / mc * mc = A at *
    omega

/-- Planned allocation sizes stay within [1, mc]. -/
theorem alloc_bounds (sc mc : Nat) (hmc : 1 ≤ mc) (hsc : 1 ≤ sc) :
    ∀ t, t < (sc + mc - 1) / mc →
      1 ≤ sc / ((sc + mc - 1) / mc) +
          (if t < sc % ((sc + mc - 1) / mc) then 1 else 0) ∧
      sc / ((sc + mc - 1) / mc) +
          (if t < sc % ((sc + mc - 1) / mc) then 1 else 0) ≤ mc := by
  obtain ⟨hn1, hnsc, hceil⟩ := split_arith sc mc hmc hsc
  set n := (sc + mc - 1) / mc with hn
  have hn0 : 0 < n := hn1
  have hdm : n * (sc / n) + sc % n = sc := Nat.div_add_mod sc n
  have hper1 : 1 ≤ sc / n := (Nat.one_le_div_iff hn0).2 hnsc
  have hperm : sc / n ≤ mc := by
    rw [Nat.div_le_iff_le_mul_add_pred hn0]
    have : n * mc = mc * n := Nat.mul_comm n mc
    omega
  intro t ht
  refine ⟨by omega, ?_⟩
  by_cases hpm : sc / n < mc
  · split <;> omega
  · have hpe : sc / n = mc := Nat.le_antisymm hperm (Nat.le_of_not_lt hpm)
    have hrem0 : sc % n = 0 := by
      rw [hpe] at hdm
      have : n * mc = mc * n := Nat.mul_comm n mc
      omega
    rw [hrem0]
    split <;> omega

/-- Closed form of _split_course_into_multiple_courses when the largest
capacity and the student count are positive: exactly n = ceil(sc / mc)
siblings, the i-th sized sc/n plus one for the first sc%n of them. -/
theorem splitCourse_spec (c : Course) (mc : Nat) (hmc : 1 ≤ mc)
    (hsc : 1 ≤ c.student_count) :
    splitCourseIntoMultipleCourses c mc =
      (List.range ((c.student_count + mc - 1) / mc)).map
        (fun i => mkSplit c i
          (c.student_count / ((c.student_count + mc - 1) / mc) +
            if i < c.student_count % ((c.student_count + mc - 1) / mc)
            then 1 else 0)) := by
  obtain ⟨hn1, hnsc, hceil⟩ := split_arith c.student_count mc hmc hsc
  have hb := alloc_bounds c.student_count mc hmc hsc
  have hdm : ((c.student_count + mc - 1) / mc) *
      (c.student_count / ((c.student_count + mc - 1) / mc)) +
      c.student_count % ((c.student_count + mc - 1) / mc) = c.student_count :=
    Nat.div_add_mod _ _
  have hremlt : c.student_count % ((c.student_count + mc - 1) / mc) <
      (c.student_count + mc - 1) / mc := Nat.mod_lt _ hn1
  have hsum : c.student_count =
      ((List.range ((c.student_count + mc - 1) / mc)).map
        (fun t => c.student_count / ((c.student_count + mc - 1) / mc) +
          if t < c.student_count % ((c.student_count + mc - 1) / mc)
          then 1 else 0)).sum := by
    rw [sumAlloc, Nat.min_eq_left (Nat.le_of_lt hremlt)]
    omega
  have haux := splitAux_spec c
    (c.student_count / ((c.student_count + mc - 1) / mc))
    (c.student_count % ((c.student_count + mc - 1) / mc)) mc
    ((c.student_count + mc - 1) / mc) 0 c.student_count
    (fun t ht => by simpa using hb t (by simpa using ht))
    (by simpa using hsum)
  simp only [splitCourseIntoMultipleCourses]
  rw [if_neg (by omega : ¬ (c.student_count + mc - 1) / mc < 1)]
  rw [haux]
  rw [if_neg (by simp)]
  simp

/-- C5: a course whose student count exceeds the largest room capacity,
or that no room at its location can hold, is replaced by course
preparation with siblings ids _C1, _C2, ... whose student counts sum to
the original, none above the largest capacity, partitioned as evenly as
possible with the remainder on the first siblings. -/
theorem C5_course_splitting :
    ∀ (rooms : List Room) (l1 l2 : List Course) (c : Course),
      1 ≤ maxCapacity rooms →
      (maxCapacity rooms < c.student_count ∨ suitableRoomsFor rooms c = []) →
      1 ≤ c.student_count →
      (prepareCoursesWithSessions rooms (l1 ++ c :: l2) true =
        prepareCoursesWithSessions rooms l1 true ++
          splitCourseIntoMultipleCourses c (maxCapacity rooms) ++
          prepareCoursesWithSessions rooms l2 true) ∧
      (((splitCourseIntoMultipleCourses c (maxCapacity rooms)).map
          (·.student_count)).sum = c.student_count) ∧
      (∀ x ∈ splitCourseIntoMultipleCourses c (maxCapacity rooms),
          x.student_count ≤ maxCapacity rooms) ∧
      ((splitCourseIntoMultipleCourses c (maxCapacity rooms)).map (·.course_id) =
        (List.range ((c.student_count + maxCapacity rooms - 1) / maxCapacity rooms)).map
          (fun i => c.course_id ++ "_C" ++ toString (i + 1))) ∧
      ((splitCourseIntoMultipleCourses c (maxCapacity rooms)).map (·.student_count) =
        (List.range ((c.student_count + maxCapacity rooms - 1) / maxCapacity rooms)).map
          (fun i => c.student_count /
              ((c.student_count + maxCapacity rooms - 1) / maxCapacity rooms) +
            if i < c.student_count %
              ((c.student_count + maxCapacity rooms - 1) / maxCapacity rooms)
            then 1 else 0)) := by
  intro rooms l1 l2 c hmc htrig hsc
  have hspec := splitCourse_spec c (maxCapacity rooms) hmc hsc
  have hcond : (c.needs_splitting (maxCapacity rooms) ||
      (suitableRoomsFor rooms c).isEmpty) = true := by
    rcases htrig with h | h
    · simp [Course.needs_splitting, h]
    · simp [h]
  refine ⟨?_, ?_, ?_, ?_, ?_⟩
  · simp only [prepareCoursesWithSessions, not_true, if_false,
      List.flatMap_append, List.flatMap_cons, hcond, if_true, ite_true]
    simp [List.append_assoc]
  · rw [hspec, List.map_map]
    have : ((fun x : Course => x.student_count) ∘
        (fun i => mkSplit c i
          (c.student_count / ((c.student_count + maxCapacity rooms - 1) / maxCapacity rooms) +
            if i < c.student_count % ((c.student_count + maxCapacity rooms - 1) / maxCapacity rooms)
            then 1 else 0))) =
        (fun i => c.student_count / ((c.student_count + maxCapacity rooms - 1) / maxCapacity rooms) +
          if i < c.student_count % ((c.student_count + maxCapacity rooms - 1) / maxCapacity rooms)
          then 1 else 0) := rfl
    rw [this, sumAlloc]
    obtain ⟨hn1, hnsc, hceil⟩ := split_arith c.student_count (maxCapacity rooms) hmc hsc
    have hdm := Nat.div_add_mod c.student_count
      ((c.student_count + maxCapacity rooms - 1) / maxCapacity rooms)
    have hremlt : c.student_count %
        ((c.student_count + maxCapacity rooms - 1) / maxCapacity rooms) <
        (c.student_count + maxCapacity rooms - 1) / maxCapacity rooms :=
      Nat.mod_lt _ hn1
    rw [Nat.min_eq_left (Nat.le_of_lt hremlt)]
    omega
  · intro x hx
    rw [hspec, List.mem_map] at hx
    obtain ⟨i, hi, rfl⟩ := hx
    rw [List.mem_range] at hi
    exact (alloc_bounds c.student_count (maxCapacity rooms) hmc hsc i hi).2
  · rw [hspec, List.map_map]
    rfl
  · rw [hspec, List.map_map]
    rfl

/-- Course used by the C5 witness: the spec's 250-student example. -/
def exBigCourse : Course :=
  { course_id := "PHI101", name := "Phi", location := "A", exam_format := "w",
    student_count := 250 }

/-- Witness for C5: splitting 250 students against a 100-capacity
largest room (n = 3 sessions of 84/83/83). -/
theorem C5_course_splitting_witness :
    prepareCoursesWithSessions [{ room_id := "R", capacity := 100, location := "A" }]
        ([] ++ exBigCourse :: []) true =
      prepareCoursesWithSessions [{ room_id := "R", capacity := 100, location := "A" }] [] true ++
        splitCourseIntoMultipleCourses exBigCourse
          (maxCapacity [{ room_id := "R", capacity := 100, location := "A" }]) ++
        prepareCoursesWithSessions [{ room_id := "R", capacity := 100, location := "A" }] [] true ∧
    ((splitCourseIntoMultipleCourses exBigCourse
        (maxCapacity [{ room_id := "R", capacity := 100, location := "A" }])).map
      (·.student_count)).sum = 250 ∧
    (splitCourseIntoMultipleCourses exBigCourse
        (maxCapacity [{ room_id := "R", capacity := 100, location := "A" }])).map
      (·.course_id) = ["PHI101_C1", "PHI101_C2", "PHI101_C3"] ∧
    (splitCourseIntoMultipleCourses exBigCourse
        (maxCapacity [{ room_id := "R", capacity := 100, location := "A" }])).map
      (·.student_count) = [84, 83, 83] := by
  have h := C5_course_splitting [{ room_id := "R", capacity := 100, location := "A" }]
    [] [] exBigCourse (by decide) (Or.inl (by decide)) (by decide)
  exact ⟨h.1, h.2.1, by decide, by decide⟩

/-! ## Solver environment and shared search-space helpers -/

/-- Static inputs shared by the SA perturbation operators: the room,
proctor, date and time-slot universes built at solver construction. -/
structure SolverEnv where
  rooms : List Room
  proctors : List Proctor
  dates : List String
  times : List String
deriving Repr

/-- Model of `random.choice(l)` / `l[k]` with the draw as an oracle
index: any element of a nonempty list is reachable; on an empty list
Python would raise, here the default is returned (all uses are guarded
by nonemptiness checks mirroring the source). -/
def pickL {α : Type} [Inhabited α] (l : List α) (k : Nat) : α :=
  l.getD (k % l.length) default

/-- Python's `min(rooms, key=lambda r: r.capacity)`: first room with the
minimal capacity. -/
def minByCapacity : List Room → Option Room
  | [] => none
  | r :: rest =>
    some (rest.foldl (fun b x => if x.capacity < b.capacity then x else b) r)

/-- Utilization score of BaseSolver._find_optimal_room with
prefer_smaller=False: closest to 80% inside the 60-90% band, penalized
outside it. -/
def roomScore (student_count : Nat) (r : Room) : ℚ :=
  let u : ℚ := (student_count : ℚ) / (r.capacity : ℚ)
  if 6/10 ≤ u ∧ u ≤ 9/10 then 1 - |u - 8/10|
  else if u < 6/10 then u * (1/2)
  else (1 - u) * (1/2)

/-- BaseSolver._find_optimal_room: among same-location rooms with enough
capacity, the smallest one (prefer_smaller) or the best-scoring one
(strictly-better updates keep the first maximum); none when no room at
the location fits. -/
def findOptimalRoom (rooms : List Room) (student_count : Nat) (loc : String)
    (prefer_smaller : Bool) : Option Room :=
  let suitable := rooms.filter
    (fun r => r.location = loc ∧ student_count ≤ r.capacity)
  if suitable.isEmpty then none
  else if prefer_smaller then minByCapacity suitable
  else
    let best := suitable.foldl (fun (acc : Option Room × ℚ) r =>
      let score := roomScore student_count r
      if acc.2 < score then (some r, score) else acc) (none, -1)
    match best.1 with
    | some r => some r
    | none => suitable.head?

/-! ## SA perturbation operators with backup/rollback -/

/-- Old values of a mutated course, as stored in
`backup_data['old_values']`: date, time, room, proctor. -/
abbrev OldVals := Option String × Option String × Option String × Option String

/-- Backup returned by _perturb_move: parallel
(course index, old values) records. -/
abbrev Backup := List (Nat × OldVals)

/-- Snapshot of the four mutable assignment fields. -/
def backupOf (c : Course) : OldVals :=
  (c.assigned_date, c.assigned_time, c.assigned_room, c.assigned_proctor_id)

/-- SASolver._undo_move body for one backup record: restore all four
assignment fields of the course at the saved index. -/
def restoreCourse (c : Course) (o : OldVals) : Course :=
  { c with
      assigned_date := o.1
      assigned_time := o.2.1
      assigned_room := o.2.2.1
      assigned_proctor_id := o.2.2.2 }

/-- One element of the _undo_move loop (indices out of range are
skipped, as by the `0 <= idx < len` guard). -/
def undoStep (cs : List Course) (p : Nat × OldVals) : List Course :=
  match cs.get? p.1 with
  | some c => cs.set p.1 (restoreCourse c p.2)
  | none => cs

/-- SASolver._undo_move: replay every backup record. -/
def undoMove (s : Schedule) (b : Backup) : Schedule :=
  { s with courses := b.foldl undoStep s.courses }

/-- Change drawn by `random.choice(['date','time','room','proctor','all'])`. -/
inductive ChangeType where
  | date | time | room | proctor | all
deriving DecidableEq, Repr

/-- Random draws consumed by one _perturb_move call, as oracle inputs:
sampled indices, the change type, replacement picks and the fallback
coin (`random.random() > 0.3`). -/
structure MoveOracle where
  swapI : Nat := 0
  swapJ : Nat := 0
  pickIdx : Nat := 0
  changeType : ChangeType := ChangeType.all
  dateIdx : Nat := 0
  timeIdx : Nat := 0
  proctorIdx : Nat := 0
  roomIdx : Nat := 0
  coin : ℚ := 0
  smartIdx : Nat := 0
deriving Repr

/-- Room replacement of the random move: the optimal room if one exists,
else the suitable-room coin-flip fallback (the suitable list recomputed
there is empty whenever the optimal lookup failed, so the final
`random.choice(self.rooms)` is what actually runs). -/
def randomRoomChoice (env : SolverEnv) (o : MoveOracle) (c : Course) : String :=
  match findOptimalRoom env.rooms c.student_count c.location false with
  | some r => r.room_id
  | none =>
    let suitable := env.rooms.filter
      (fun r => r.location = c.location ∧ c.student_count ≤ r.capacity)
    if ¬ suitable.isEmpty ∧ (3/10 : ℚ) < o.coin then
      (pickL suitable o.roomIdx).room_id
    else (pickL env.rooms o.roomIdx).room_id

/-- Field rewrites of SASolver._perturb_move_random for the drawn change
type (date/time/room re-rolls, proctor re-assignment when proctors
exist). -/
def applyRandomChanges (env : SolverEnv) (o : MoveOracle) (c : Course) : Course :=
  let d := if o.changeType = ChangeType.date ∨ o.changeType = ChangeType.all
           then some (pickL env.dates o.dateIdx) else c.assigned_date
  let t := if o.changeType = ChangeType.time ∨ o.changeType = ChangeType.all
           then some (pickL env.times o.timeIdx) else c.assigned_time
  let r := if o.changeType = ChangeType.room ∨ o.changeType = ChangeType.all
           then some (randomRoomChoice env o c) else c.assigned_room
  let p := if (o.changeType = ChangeType.proctor ∨ o.changeType = ChangeType.all) ∧
              env.proctors ≠ []
           then some (pickL env.proctors o.proctorIdx).proctor_id
           else c.assigned_proctor_id
  { c with
      assigned_date := d
      assigned_time := t
      assigned_room := r
      assigned_proctor_id := p }

/-- SASolver._perturb_move_random: pick a non-locked course and re-roll
fields per the change type; when every course is locked, only re-assign
the proctor of a random course (no-op without proctors). -/
def perturbRandom (env : SolverEnv) (o : MoveOracle) (s : Schedule) :
    Schedule × Backup :=
  let modifiable := s.courses.enum.filter (fun p => ¬ p.2.is_locked)
  if modifiable.isEmpty then
    if env.proctors ≠ [] ∧ s.courses ≠ [] then
      let i := o.pickIdx % s.courses.length
      match s.courses.get? i with
      | some c =>
        let pid := some (pickL env.proctors o.proctorIdx).proctor_id
        let c' := { c with assigned_proctor_id := pid }
        ({ s with courses := s.courses.set i c' }, [(i, backupOf c)])
      | none => (s, [])
    else (s, [])
  else
    let pr := pickL modifiable o.pickIdx
    ({ s with courses := s.courses.set pr.1 (applyRandomChanges env o pr.2) },
     [(pr.1, backupOf pr.2)])

/-- Swap branch of SASolver._perturb_move: exchange all four assignment
fields between the two sampled courses (locked or not). -/
def perturbSwap (s : Schedule) (i j : Nat) : Schedule × Backup :=
  match s.courses.get? i, s.courses.get? j with
  | some c1, some c2 =>
    let c1' := { c1 with
                   assigned_date := c2.assigned_date
                   assigned_time := c2.assigned_time
                   assigned_room := c2.assigned_room
                   assigned_proctor_id := c2.assigned_proctor_id }
    let c2' := { c2 with
                   assigned_date := c1.assigned_date
                   assigned_time := c1.assigned_time
                   assigned_room := c1.assigned_room
                   assigned_proctor_id := c1.assigned_proctor_id }
    ({ s with courses := (s.courses.set i c1').set j c2' },
     [(i, backupOf c1), (j, backupOf c2)])
  | _, _ => (s, [])

/-- Scan of the smart move: first scheduled course whose known room is
at the wrong location (raw != comparison) and that has suitable rooms
to move to. -/
def findSmartTarget (rooms : List Room) : List Course → Nat →
    Option (Nat × Course × List Room)
  | [], _ => none
  | c :: rest, i =>
    if c.is_scheduled then
      match roomLookup rooms (c.assigned_room.getD "") with
      | some r =>
        if r.location ≠ c.location then
          let suitable := rooms.filter
            (fun r2 => r2.location = c.location ∧ c.student_count ≤ r2.capacity)
          if ¬ suitable.isEmpty then some (i, c, suitable)
          else findSmartTarget rooms rest (i + 1)
        else findSmartTarget rooms rest (i + 1)
      | none => findSmartTarget rooms rest (i + 1)
    else findSmartTarget rooms rest (i + 1)

/-- Smart branch of SASolver._perturb_move: when the location-mismatch
penalty is positive, repair the first repairable offender by assigning a
suitable room; otherwise fall back to the random move. -/
def perturbSmart (env : SolverEnv) (o : MoveOracle) (s : Schedule) :
    Schedule × Backup :=
  if 0 < checkLocationMismatch env.rooms s then
    match findSmartTarget env.rooms s.courses 0 with
    | some (i, c, suitable) =>
      let rid := some (pickL suitable o.smartIdx).room_id
      let c' := { c with assigned_room := rid }
      ({ s with courses := s.courses.set i c' }, [(i, backupOf c)])
    | none => perturbRandom env o s
  else perturbRandom env o s

/-- Neighbor strategy from the configuration. -/
inductive NeighborType where
  | swap | random | smart
deriving DecidableEq, Repr

/-- Distinct pair drawn by `random.sample(range(n), 2)`, derived from
two oracle naturals: always two different indices below n (for n ≥ 2). -/
def samplePair (n : Nat) (a b : Nat) : Nat × Nat :=
  let i := a % n
  let j0 := b % (n - 1)
  (i, if i ≤ j0 then j0 + 1 else j0)

/-- SASolver._perturb_move: dispatch on the configured neighbor type; an
empty schedule returns an empty backup, a one-course schedule demotes
swap to the random move. -/
def perturbMove (env : SolverEnv) (nt : NeighborType) (o : MoveOracle)
    (s : Schedule) : Schedule × Backup :=
  if s.courses.isEmpty then (s, [])
  else
    match nt with
    | NeighborType.swap =>
      if s.courses.length < 2 then perturbRandom env o s
      else
        let ij := samplePair s.courses.length o.swapI o.swapJ
        perturbSwap s ij.1 ij.2
    | NeighborType.smart => perturbSmart env o s
    | NeighborType.random => perturbRandom env o s

/-! ## Rollback correctness machinery -/

/-- Setting an index back to the element it already holds is a no-op. -/
theorem list_set_get?_self {α : Type} (l : List α) (i : Nat) (c : α)
    (h : l.get? i = some c) : l.set i c = l := by
  induction l generalizing i with
  | nil => rfl
  | cons a rest ih =>
    cases i with
    | zero => simp at h; simp [List.set, h]
    | succ n => simp only [List.get?] at h; simp [List.set, ih n h]

/-- pickL returns a member of any nonempty list. -/
theorem pickL_mem {α : Type} [Inhabited α] (l : List α) (k : Nat) (h : l ≠ []) :
    pickL l k ∈ l := by
  unfold pickL
  have hlen : 0 < l.length := List.length_pos.2 h
  have hk : k % l.length < l.length := Nat.mod_lt k hlen
  rw [List.getD_eq_get?, List.get?_eq_get hk]
  exact List.get_mem l _ _

/-- Undoing a one-record backup after overwriting that index restores
the schedule, whenever the restore of the written course is the backed
up course. -/
theorem undo_one (s : Schedule) (i : Nat) (c c' : Course)
    (hc : s.courses.get? i = some c)
    (hres : restoreCourse c' (backupOf c) = c) :
    undoMove { s with courses := s.courses.set i c' } [(i, backupOf c)] = s := by
  have hlen : i < s.courses.length := List.get?_eq_some.1 hc |>.1
  unfold undoMove
  simp only [List.foldl]
  unfold undoStep
  have hget : (s.courses.set i c').get? i = some c' :=
    List.get?_set_eq_of_lt c' hlen
  rw [hget]
  simp only []
  rw [List.set_set, hres, list_set_get?_self _ _ _ hc]

/-- Members of the enumerate-filter list of modifiable courses really
live at their recorded index. -/
theorem enum_filter_get? (cs : List Course) (p : Nat × Course)
    (hp : p ∈ cs.enum.filter (fun q => ¬ q.2.is_locked)) :
    cs.get? p.1 = some p.2 := by
  have hmem : p ∈ cs.enum := List.mem_of_mem_filter hp
  rw [List.get?_eq_getElem?]
  exact (List.mem_enum_iff_getElem?.1 (by exact_mod_cast hmem))

/-- Rollback of the random move is exact, for every oracle. -/
theorem undo_perturbRandom (env : SolverEnv) (o : MoveOracle) (s : Schedule) :
    undoMove (perturbRandom env o s).1 (perturbRandom env o s).2 = s := by
  simp only [perturbRandom]
  split
  · split
    · split
      next c hget =>
        exact undo_one s _ c _ hget rfl
      next => rfl
    · rfl
  · next hmod =>
    have hne : s.courses.enum.filter (fun q => ¬ q.2.is_locked) ≠ [] := by
      simpa [List.isEmpty_iff] using hmod
    have hmem := pickL_mem _ o.pickIdx hne
    have hget := enum_filter_get? s.courses _ hmem
    exact undo_one s _ _ _ hget rfl

/-- Rollback of the swap move is exact for distinct indices (and trivial
when either index is out of range). -/
theorem undo_perturbSwap (s : Schedule) (i j : Nat) (hij : i ≠ j) :
    undoMove (perturbSwap s i j).1 (perturbSwap s i j).2 = s := by
  simp only [perturbSwap]
  split
  next c1 c2 hc1 hc2 =>
    have hi : i < s.courses.length := List.get?_eq_some.1 hc1 |>.1
    have hj : j < s.courses.length := List.get?_eq_some.1 hc2 |>.1
    set c1' : Course := { c1 with
      assigned_date := c2.assigned_date
      assigned_time := c2.assigned_time
      assigned_room := c2.assigned_room
      assigned_proctor_id := c2.assigned_proctor_id } with hc1'
    set c2' : Course := { c2 with
      assigned_date := c1.assigned_date
      assigned_time := c1.assigned_time
      assigned_room := c1.assigned_room
      assigned_proctor_id := c1.assigned_proctor_id } with hc2'
    unfold undoMove
    simp only [List.foldl]
    unfold undoStep
    have hgi : ((s.courses.set i c1').set j c2').get? i = some c1' := by
      rw [List.get?_set_ne _ _ (Ne.symm hij), List.get?_eq_getElem?]
      exact List.getElem?_set_eq_of_lt _ hi
    rw [hgi]
    simp only []
    have hres1 : restoreCourse c1' (backupOf c1) = c1 := rfl
    rw [hres1]
    have hgj : ((((s.courses.set i c1').set j c2').set i c1)).get? j = some c2' := by
      rw [List.get?_set_ne _ _ hij, List.get?_eq_getElem?]
      exact List.getElem?_set_eq_of_lt _ (by simpa using hj)
    rw [hgj]
    simp only []
    have hres2 : restoreCourse c2' (backupOf c2) = c2 := rfl
    rw [hres2]
    have hfin : ((((s.courses.set i c1').set j c2').set i c1)).set j c2 =
        s.courses := by
      rw [List.set_comm _ _ _ (Ne.symm hij), List.set_set, List.set_set,
        list_set_get?_self _ _ _ hc1, list_set_get?_self _ _ _ hc2]
    rw [hfin]
  next => rfl

/-- The smart-move scan reports a course at its true index (relative to
the running offset) with a nonempty suitable-room list. -/
theorem findSmartTarget_get? (rooms : List Room) :
    ∀ (cs : List Course) (i0 : Nat) (i : Nat) (c : Course) (su : List Room),
      findSmartTarget rooms cs i0 = some (i, c, su) →
      ∃ k, i = i0 + k ∧ cs.get? k = some c := by
  intro cs
  induction cs with
  | nil => intro i0 i c su h; exact absurd h (by simp [findSmartTarget])
  | cons a rest ih =>
    intro i0 i c su h
    simp only [findSmartTarget] at h
    split at h
    · split at h
      · split at h
        · split at h
          · injection h with hp
            cases hp
            exact ⟨0, by omega, rfl⟩
          · obtain ⟨k, hk, hg⟩ := ih (i0 + 1) i c su h
            exact ⟨k + 1, by omega, hg⟩
        · obtain ⟨k, hk, hg⟩ := ih (i0 + 1) i c su h
          exact ⟨k + 1, by omega, hg⟩
      · obtain ⟨k, hk, hg⟩ := ih (i0 + 1) i c su h
        exact ⟨k + 1, by omega, hg⟩
    · obtain ⟨k, hk, hg⟩ := ih (i0 + 1) i c su h
      exact ⟨k + 1, by omega, hg⟩

/-- Rollback of the smart move is exact, for every oracle. -/
theorem undo_perturbSmart (env : SolverEnv) (o : MoveOracle) (s : Schedule) :
    undoMove (perturbSmart env o s).1 (perturbSmart env o s).2 = s := by
  simp only [perturbSmart]
  split
  · split
    next i c su hfind =>
      obtain ⟨k, hk, hg⟩ := findSmartTarget_get? env.rooms s.courses 0 i c su hfind
      have hik : i = k := by omega
      subst hik
      exact undo_one s _ _ _ hg rfl
    next => exact undo_perturbRandom env o s
  · exact undo_perturbRandom env o s

/-- Rollback of the dispatched perturbation is exact, for every
strategy, oracle and schedule. -/
theorem undo_perturbMove (env : SolverEnv) (nt : NeighborType) (o : MoveOracle)
    (s : Schedule) :
    undoMove (perturbMove env nt o s).1 (perturbMove env nt o s).2 = s := by
  simp only [perturbMove]
  split
  · rfl
  · match nt with
    | NeighborType.swap =>
      simp only []
      split
      · exact undo_perturbRandom env o s
      · next hlen =>
        apply undo_perturbSwap
        simp only [samplePair]
        split <;> omega
    | NeighborType.smart => exact undo_perturbSmart env o s
    | NeighborType.random => exact undo_perturbRandom env o s

/-! ## The SA loop -/

/-- SASolver._acceptance_probability: 1 for an improving move, else
exp(-(new - current) / T).  For T > 0 the argument is nonpositive, so
math.exp cannot overflow; the OverflowError handler (probability 0) is
unreachable in real arithmetic. -/
noncomputable def acceptanceProbability (current_cost new_cost : ℚ) (temperature : ℝ) : ℝ :=
  if new_cost < current_cost then 1
  else Real.exp (-(((new_cost - current_cost : ℚ) : ℝ)) / temperature)

/-- Mutable state of the SA main loop. -/
structure SAState where
  current : Schedule
  currentCost : ℚ
  best : Schedule
  bestCost : ℚ
deriving Repr

/-- One iteration of SASolver.run: perturb in place, evaluate with the
fast checker, accept with the Metropolis probability (u is the
random.random() draw); on accept keep the mutation (and deep-copy into
the best slot only on strict improvement), on reject roll back from the
backup and keep the current cost. -/
noncomputable def saStep (env : SolverEnv) (nt : NeighborType) (T : ℝ)
    (o : MoveOracle) (u : ℝ) (st : SAState) : SAState :=
  let pb := perturbMove env nt o st.current
  let newCost := calculate_fast_pure env.rooms pb.1
  let p := acceptanceProbability st.currentCost newCost T
  if u < p then
    if newCost < st.bestCost then
      { current := pb.1, currentCost := newCost, best := pb.1, bestCost := newCost }
    else
      { st with current := pb.1, currentCost := newCost }
  else
    { st with current := undoMove pb.1 pb.2 }

/-- The SA loop over a stream of per-iteration oracles, with geometric
cooling threaded through (the loop's stop conditions only bound the
stream length). -/
noncomputable def saRunFrom (env : SolverEnv) (nt : NeighborType) (cooling : ℝ) :
    List (MoveOracle × ℝ) → SAState × ℝ → SAState × ℝ
  | [], stT => stT
  | ou :: rest, stT =>
    saRunFrom env nt cooling rest
      (saStep env nt stT.2 ou.1 ou.2 stT.1, stT.2 * cooling)

/-- Best cost recorded after n iterations of the SA loop. -/
noncomputable def saBestAfter (env : SolverEnv) (nt : NeighborType) (cooling : ℝ)
    (os : List (MoveOracle × ℝ)) (init : SAState × ℝ) (n : Nat) : ℚ :=
  (saRunFrom env nt cooling (os.take n) init).1.bestCost

/-- A rejected SA move leaves the whole state (schedule and cost) as it
was. -/
theorem saStep_reject (env : SolverEnv) (nt : NeighborType) (T : ℝ)
    (o : MoveOracle) (u : ℝ) (st : SAState)
    (h : ¬ u < acceptanceProbability st.currentCost
      (calculate_fast_pure env.rooms (perturbMove env nt o st.current).1) T) :
    saStep env nt T o u st = st := by
  simp only [saStep]
  rw [if_neg h, undo_perturbMove]

/-- An accepted SA move keeps the mutated schedule and takes its fast
cost as the current cost. -/
theorem saStep_accept (env : SolverEnv) (nt : NeighborType) (T : ℝ)
    (o : MoveOracle) (u : ℝ) (st : SAState)
    (h : u < acceptanceProbability st.currentCost
      (calculate_fast_pure env.rooms (perturbMove env nt o st.current).1) T) :
    (saStep env nt T o u st).current = (perturbMove env nt o st.current).1 ∧
    (saStep env nt T o u st).currentCost =
      calculate_fast_pure env.rooms (perturbMove env nt o st.current).1 := by
  simp only [saStep]
  rw [if_pos h]
  split <;> exact ⟨rfl, rfl⟩

/-- The SA best cost never increases in one step, and the stored best
schedule is replaced only on a strict improvement. -/
theorem saStep_best_monotone (env : SolverEnv) (nt : NeighborType) (T : ℝ)
    (o : MoveOracle) (u : ℝ) (st : SAState) :
    (saStep env nt T o u st).bestCost ≤ st.bestCost ∧
    ((saStep env nt T o u st).best ≠ st.best →
      (saStep env nt T o u st).bestCost < st.bestCost) := by
  simp only [saStep]
  split
  · split
    next hlt => exact ⟨le_of_lt hlt, fun _ => hlt⟩
    next hge => exact ⟨le_refl _, fun hne => absurd rfl hne⟩
  · exact ⟨le_refl _, fun hne => absurd rfl hne⟩

/-- Along any run of the SA loop the best cost is non-increasing. -/
theorem saRunFrom_best_monotone (env : SolverEnv) (nt : NeighborType)
    (cooling : ℝ) :
    ∀ (os : List (MoveOracle × ℝ)) (stT : SAState × ℝ),
      (saRunFrom env nt cooling os stT).1.bestCost ≤ stT.1.bestCost := by
  intro os
  induction os with
  | nil => intro stT; exact le_refl _
  | cons ou rest ih =>
    intro stT
    exact le_trans (ih _) (saStep_best_monotone env nt stT.2 ou.1 ou.2 stT.1).1

/-- Running the SA loop over an appended stream composes. -/
theorem saRunFrom_append (env : SolverEnv) (nt : NeighborType) (cooling : ℝ) :
    ∀ (l1 l2 : List (MoveOracle × ℝ)) (stT : SAState × ℝ),
      saRunFrom env nt cooling (l1 ++ l2) stT =
        saRunFrom env nt cooling l2 (saRunFrom env nt cooling l1 stT) := by
  intro l1
  induction l1 with
  | nil => intro l2 stT; rfl
  | cons ou rest ih =>
    intro l2 stT
    simp only [List.cons_append, saRunFrom]
    exact ih l2 _

/-- The sequence of recorded SA best costs is non-increasing over the
whole run. -/
theorem saBestAfter_antitone (env : SolverEnv) (nt : NeighborType)
    (cooling : ℝ) (os : List (MoveOracle × ℝ)) (init : SAState × ℝ) (n : Nat) :
    saBestAfter env nt cooling os init (n + 1) ≤
      saBestAfter env nt cooling os init n := by
  unfold saBestAfter
  cases hg : os.get? n with
  | none =>
    have hlen : os.length ≤ n := List.get?_eq_none.1 hg
    rw [List.take_of_length_le hlen, List.take_of_length_le (le_trans hlen (Nat.le_succ n))]
  | some ou =>
    rw [List.get?_eq_getElem?] at hg
    rw [List.take_succ, hg]
    simp only [Option.toList_some]
    rw [saRunFrom_append]
    exact (saStep_best_monotone env nt _ ou.1 ou.2 _).1

/-! ## The PSO loop -/

/-- Static setup of PSOSolver: processed course templates, flattened
(date, time) slot universe, rooms, proctors and the PSO coefficients. -/
structure PSOSetup where
  rooms : List Room
  proctors : List Proctor
  templates : List Course
  slots : List (String × String)
  w : ℚ
  c1 : ℚ
  c2 : ℚ
deriving Repr

/-- Python's int() truncation toward zero on a rational. -/
def truncQ (q : ℚ) : Int := if 0 ≤ q then ⌊q⌋ else ⌈q⌉

/-- np.clip on integers: min(max(x, lo), hi). -/
def intClip (x lo hi : Int) : Int := min (max x lo) hi

/-- np.clip on one rational coordinate. -/
def clipQ (x lo hi : ℚ) : ℚ := min (max x lo) hi

/-- Upper-bound vector of the PSO box: alternating
num_slots - 1e-6 and num_rooms - 1e-6 per course. -/
def psoUB (ps : PSOSetup) : List ℚ :=
  (List.replicate ps.templates.length
    [(ps.slots.length : ℚ) - 1/1000000, (ps.rooms.length : ℚ) - 1/1000000]).join

/-- PSOSolver._decode_position_to_schedule: fresh Course records from
the templates; locked, already-scheduled templates keep their fixed
date/time/room and ignore the vector, the rest decode truncated,
re-clipped indices into the slot and room universes (an out-of-range
index on an empty universe would raise IndexError in Python; the
defaults here are unreachable under nonempty universes). -/
def decodePositionToSchedule (ps : PSOSetup) (pos : List ℚ) : Schedule :=
  { courses := ps.templates.enum.map (fun pr =>
      let i := pr.1
      let t := pr.2
      let base : Course :=
        { course_id := t.course_id, name := t.name, location := t.location,
          exam_format := t.exam_format, note := t.note,
          student_count := t.student_count, is_locked := t.is_locked,
          duration := t.duration }
      if t.is_locked ∧ t.is_scheduled then
        { base with
            assigned_date := t.assigned_date
            assigned_time := t.assigned_time
            assigned_room := t.assigned_room }
      else
        let ti := intClip (truncQ (pos.getD (2 * i) 0)) 0 ((ps.slots.length : Int) - 1)
        let ri := intClip (truncQ (pos.getD (2 * i + 1) 0)) 0 ((ps.rooms.length : Int) - 1)
        let dt := ps.slots.getD ti.toNat ("", "")
        { base with
            assigned_date := some dt.1
            assigned_time := some dt.2
            assigned_room := some (ps.rooms.getD ri.toNat default).room_id }) }

/-- Assignment counts per proctor id, default 0 (the dict of
_assign_proctors_to_schedule). -/
def countOf (counts : List (String × Nat)) (pid : String) : Nat :=
  match counts.find? (fun e => e.1 = pid) with
  | some e => e.2
  | none => 0

/-- Increment one proctor's assignment count. -/
def bumpCount (counts : List (String × Nat)) (pid : String) : List (String × Nat) :=
  match counts.find? (fun e => e.1 = pid) with
  | some _ => counts.map (fun e => if e.1 = pid then (e.1, e.2 + 1) else e)
  | none => counts ++ [(pid, 1)]

/-- Proctor with the fewest assignments so far: the scan keeps the first
strict minimum, mirroring `assignments_count < min_assignments` with
min_assignments starting at infinity. -/
def pickMinLoad (counts : List (String × Nat)) (ps : List Proctor) :
    Option Proctor :=
  (ps.foldl (fun (acc : Option (Proctor × Nat)) pr =>
    let cnt := countOf counts pr.proctor_id
    match acc with
    | none => some (pr, cnt)
    | some (_, bc) => if cnt < bc then some (pr, cnt) else acc) none).map (·.1)

/-- Course-by-course load-balancing pass of
PSOSolver._assign_proctors_to_schedule (courses already carrying a
truthy proctor id are skipped). -/
def assignProctorsAux (ps : List Proctor) :
    List (String × Nat) → List Course → List Course
  | _, [] => []
  | counts, c :: rest =>
    if strOptTruthy c.assigned_proctor_id then
      c :: assignProctorsAux ps counts rest
    else
      match pickMinLoad counts ps with
      | some pr =>
        { c with assigned_proctor_id := some pr.proctor_id } ::
          assignProctorsAux ps (bumpCount counts pr.proctor_id) rest
      | none => c :: assignProctorsAux ps counts rest

/-- PSOSolver._assign_proctors_to_schedule: no-op without proctors or
courses. -/
def assignProctors (ps : List Proctor) (s : Schedule) : Schedule :=
  if ps = [] ∨ s.courses = [] then s
  else { s with courses := assignProctorsAux ps [] s.courses }

/-- One particle of the swarm. -/
structure Particle where
  position : List ℚ
  velocity : List ℚ
  pbest_position : List ℚ
  pbest_value : WithTop ℚ
deriving Repr

/-- Shared best-so-far state of the PSO run (gbest starts at infinity,
i.e. ⊤). -/
structure PSOGlobal where
  gbest_position : List ℚ
  gbest_value : WithTop ℚ
  best_solution : Option Schedule
  gbest_updates : Nat
  pbest_updates : Nat
deriving Repr

/-- Canonical velocity update
v = w*v + c1*r1*(pbest - x) + c2*r2*(gbest - x), componentwise. -/
def velocityUpdate (w c1 c2 : ℚ) (v x pb gb r1 r2 : List ℚ) : List ℚ :=
  List.zipWith (· + ·)
    (List.zipWith (· + ·) (v.map (fun vi => w * vi))
      (List.zipWith (· * ·) (r1.map (fun ri => c1 * ri))
        (List.zipWith (· - ·) pb x)))
    (List.zipWith (· * ·) (r2.map (fun ri => c2 * ri))
      (List.zipWith (· - ·) gb x))

/-- Position update plus box clipping (lower bounds are all 0). -/
def positionUpdate (x v ub : List ℚ) : List ℚ :=
  List.zipWith (fun xi ui => clipQ xi 0 ui) (List.zipWith (· + ·) x v) ub

/-- One particle's turn inside a PSO iteration: velocity and position
updates with the r1, r2 draws, decode, proctor balancing, fast
evaluation, then the nested pbest/gbest updates (the decoded schedule
becomes the new best solution, its provisional fitness the fast cost). -/
def psoParticleStep (ps : PSOSetup) (r1 r2 : List ℚ) (g : PSOGlobal)
    (p : Particle) : Particle × PSOGlobal :=
  let v := velocityUpdate ps.w ps.c1 ps.c2 p.velocity p.position
    p.pbest_position g.gbest_position r1 r2
  let x := positionUpdate p.position v (psoUB ps)
  let sched := assignProctors ps.proctors (decodePositionToSchedule ps x)
  let cost := calculate_fast_pure ps.rooms sched
  if (cost : WithTop ℚ) < p.pbest_value then
    let p' : Particle :=
      { position := x, velocity := v, pbest_position := x, pbest_value := cost }
    if (cost : WithTop ℚ) < g.gbest_value then
      (p', { gbest_position := x, gbest_value := (cost : WithTop ℚ),
             best_solution := some { sched with fitness_score := cost },
             gbest_updates := g.gbest_updates + 1,
             pbest_updates := g.pbest_updates + 1 })
    else
      (p', { g with pbest_updates := g.pbest_updates + 1 })
  else
    ({ p with position := x, velocity := v }, g)

/-- One PSO iteration: every particle takes its turn in order, each
seeing the global best as updated by its predecessors. -/
def psoSweep (ps : PSOSetup) :
    List Particle → List (List ℚ × List ℚ) → PSOGlobal →
      List Particle × PSOGlobal
  | [], _, g => ([], g)
  | p :: rest, rs, g =>
    let r := rs.headD ([], [])
    let pg := psoParticleStep ps r.1 r.2 g p
    let restOut := psoSweep ps rest rs.tail pg.2
    (pg.1 :: restOut.1, restOut.2)

/-- The PSO main loop over a stream of per-iteration draw lists. -/
def psoRunFrom (ps : PSOSetup) :
    List (List (List ℚ × List ℚ)) → List Particle × PSOGlobal →
      List Particle × PSOGlobal
  | [], sg => sg
  | rs :: rest, sg => psoRunFrom ps rest (psoSweep ps sg.1 rs sg.2)

/-- Global best value recorded after n PSO iterations. -/
def psoGbestAfter (ps : PSOSetup) (iters : List (List (List ℚ × List ℚ)))
    (init : List Particle × PSOGlobal) (n : Nat) : WithTop ℚ :=
  (psoRunFrom ps (iters.take n) init).2.gbest_value

/-- One particle turn never increases the global best and replaces the
stored best solution only on a strict improvement. -/
theorem psoParticleStep_monotone (ps : PSOSetup) (r1 r2 : List ℚ)
    (g : PSOGlobal) (p : Particle) :
    (psoParticleStep ps r1 r2 g p).2.gbest_value ≤ g.gbest_value ∧
    ((psoParticleStep ps r1 r2 g p).2.best_solution ≠ g.best_solution →
      (psoParticleStep ps r1 r2 g p).2.gbest_value < g.gbest_value) := by
  simp only [psoParticleStep]
  split
  · split
    next hlt => exact ⟨le_of_lt hlt, fun _ => hlt⟩
    next => exact ⟨le_refl _, fun hne => absurd rfl hne⟩
  · exact ⟨le_refl _, fun hne => absurd rfl hne⟩

/-- A full sweep over the swarm never increases the global best. -/
theorem psoSweep_monotone (ps : PSOSetup) :
    ∀ (swarm : List Particle) (rs : List (List ℚ × List ℚ)) (g : PSOGlobal),
      (psoSweep ps swarm rs g).2.gbest_value ≤ g.gbest_value := by
  intro swarm
  induction swarm with
  | nil => intro rs g; exact le_refl _
  | cons p rest ih =>
    intro rs g
    exact le_trans (ih _ _) (psoParticleStep_monotone ps _ _ g p).1

/-- The PSO run composes over appended iteration streams. -/
theorem psoRunFrom_append (ps : PSOSetup) :
    ∀ (l1 l2 : List (List (List ℚ × List ℚ))) (sg : List Particle × PSOGlobal),
      psoRunFrom ps (l1 ++ l2) sg = psoRunFrom ps l2 (psoRunFrom ps l1 sg) := by
  intro l1
  induction l1 with
  | nil => intro l2 sg; rfl
  | cons rs rest ih =>
    intro l2 sg
    simp only [List.cons_append, psoRunFrom]
    exact ih l2 _

/-- The recorded gbest sequence is non-increasing over the whole PSO
run. -/
theorem psoGbestAfter_antitone (ps : PSOSetup)
    (iters : List (List (List ℚ × List ℚ))) (init : List Particle × PSOGlobal)
    (n : Nat) :
    psoGbestAfter ps iters init (n + 1) ≤ psoGbestAfter ps iters init n := by
  unfold psoGbestAfter
  cases hg : iters.get? n with
  | none =>
    have hlen : iters.length ≤ n := List.get?_eq_none.1 hg
    rw [List.take_of_length_le hlen,
      List.take_of_length_le (le_trans hlen (Nat.le_succ n))]
  | some rs =>
    rw [List.get?_eq_getElem?] at hg
    rw [List.take_succ, hg]
    simp only [Option.toList_some]
    rw [psoRunFrom_append]
    exact psoSweep_monotone ps _ _ _

/-! ## Claim C3: perturbation rollback is exact -/

/-- C3: for every neighbor strategy, oracle draw and schedule, undoing a
perturbation with its returned backup restores the schedule exactly
(every assignment field of every course), and a rejected SA move leaves
the loop state (current schedule and current cost) unchanged. -/
theorem C3_rollback_exact :
    (∀ (env : SolverEnv) (nt : NeighborType) (o : MoveOracle) (s : Schedule),
        undoMove (perturbMove env nt o s).1 (perturbMove env nt o s).2 = s) ∧
    (∀ (env : SolverEnv) (nt : NeighborType) (T : ℝ) (o : MoveOracle) (u : ℝ)
        (st : SAState),
        ¬ u < acceptanceProbability st.currentCost
          (calculate_fast_pure env.rooms (perturbMove env nt o st.current).1) T →
        saStep env nt T o u st = st) :=
  ⟨undo_perturbMove, saStep_reject⟩

/-- Environment with one date and one time slot and no rooms or
proctors, used by the C3 witness. -/
def exEnvSmall : SolverEnv :=
  { rooms := [], proctors := [], dates := ["2025-06-01"], times := ["07:30"] }

/-- Unlocked scheduled course used by the C3 witness. -/
def exFreeCourse : Course :=
  { course_id := "FRE", name := "F", location := "L", exam_format := "w",
    student_count := 5, assigned_date := some "2025-06-01",
    assigned_time := some "07:30", assigned_room := some "RR" }

/-- Image of exFreeCourse under the default-oracle random move in
exEnvSmall (room re-roll falls through to the empty room list). -/
def exPerturbedFree : Course :=
  { course_id := "FRE", name := "F", location := "L", exam_format := "w",
    note := "", student_count := 5, assigned_date := some "2025-06-01",
    assigned_time := some "07:30", assigned_room := some "",
    assigned_proctor_id := none, is_locked := false, duration := 90 }

/-- Witness for C3: a concrete rejected move (probability is 1 for the
improving move, the draw u = 1 is not below it) leaves the state
untouched, and the rollback equation holds at the same concrete data. -/
theorem C3_rollback_exact_witness :
    undoMove
      (perturbMove exEnvSmall NeighborType.random {} { courses := [exFreeCourse] }).1
      (perturbMove exEnvSmall NeighborType.random {} { courses := [exFreeCourse] }).2 =
      { courses := [exFreeCourse] } ∧
    (¬ (1 : ℝ) < acceptanceProbability
        (1000000 : ℚ)
        (calculate_fast_pure exEnvSmall.rooms
          (perturbMove exEnvSmall NeighborType.random {}
            { courses := [exFreeCourse] }).1) 1) ∧
    saStep exEnvSmall NeighborType.random 1 {} 1
      { current := { courses := [exFreeCourse] }, currentCost := 1000000,
        best := { courses := [exFreeCourse] }, bestCost := 1000000 } =
      { current := { courses := [exFreeCourse] }, currentCost := 1000000,
        best := { courses := [exFreeCourse] }, bestCost := 1000000 } := by
  have hpb : (perturbMove exEnvSmall NeighborType.random {}
      { courses := [exFreeCourse] }).1 =
      { courses := [exPerturbedFree] } := by decide
  have hcost : calculate_fast_pure exEnvSmall.rooms
      (perturbMove exEnvSmall NeighborType.random {}
        { courses := [exFreeCourse] }).1 = 0 := by
    rw [hpb]
    have hcnt1 : countConflictPairs (roomEntries [exPerturbedFree]) = 0 := by
      decide
    have hcnt2 : countConflictPairs (proctorEntries [exPerturbedFree]) = 0 := by
      decide
    have hcap : capPenFast ([] : List Room) exPerturbedFree = 0 := by
      unfold capPenFast
      rw [if_pos (by decide : exPerturbedFree.is_scheduled = true)]
      rfl
    norm_num [calculate_fast_pure, hcnt1, hcnt2, fastRoomCapacity, hcap,
      exEnvSmall]
  have hnot : ¬ (1 : ℝ) < acceptanceProbability (1000000 : ℚ)
      (calculate_fast_pure exEnvSmall.rooms
        (perturbMove exEnvSmall NeighborType.random {}
          { courses := [exFreeCourse] }).1) 1 := by
    rw [hcost]
    norm_num [acceptanceProbability]
  refine ⟨C3_rollback_exact.1 exEnvSmall NeighborType.random {}
    { courses := [exFreeCourse] }, hnot, ?_⟩
  exact C3_rollback_exact.2 exEnvSmall NeighborType.random 1 {} 1
    { current := { courses := [exFreeCourse] }, currentCost := 1000000,
      best := { courses := [exFreeCourse] }, bestCost := 1000000 } hnot

/-! ## Claim C8: the Metropolis acceptance rule -/

/-- C8: for positive temperature the acceptance probability is 1 on an
improving move and exp(-(new - current)/T) otherwise, a genuine
probability (strictly positive, at most 1; the float-overflow handler
mapping to 0 is unreachable in real arithmetic for T > 0 since the
exponent is nonpositive); an accepted move keeps the mutation and takes
its cost, a rejected move restores the previous state exactly. -/
theorem C8_metropolis_acceptance :
    (∀ (current new : ℚ) (T : ℝ), new < current →
        acceptanceProbability current new T = 1) ∧
    (∀ (current new : ℚ) (T : ℝ), 0 < T → current ≤ new →
        acceptanceProbability current new T =
          Real.exp (-(((new - current : ℚ) : ℝ)) / T) ∧
        0 < acceptanceProbability current new T ∧
        acceptanceProbability current new T ≤ 1) ∧
    (∀ (env : SolverEnv) (nt : NeighborType) (T : ℝ) (o : MoveOracle) (u : ℝ)
        (st : SAState),
        u < acceptanceProbability st.currentCost
          (calculate_fast_pure env.rooms (perturbMove env nt o st.current).1) T →
        (saStep env nt T o u st).current = (perturbMove env nt o st.current).1 ∧
        (saStep env nt T o u st).currentCost =
          calculate_fast_pure env.rooms (perturbMove env nt o st.current).1) ∧
    (∀ (env : SolverEnv) (nt : NeighborType) (T : ℝ) (o : MoveOracle) (u : ℝ)
        (st : SAState),
        ¬ u < acceptanceProbability st.currentCost
          (calculate_fast_pure env.rooms (perturbMove env nt o st.current).1) T →
        saStep env nt T o u st = st) := by
  refine ⟨?_, ?_, saStep_accept, saStep_reject⟩
  · intro current new T h
    simp [acceptanceProbability, h]
  · intro current new T hT h
    have hnl : ¬ new < current := not_lt.2 h
    unfold acceptanceProbability
    rw [if_neg hnl]
    refine ⟨rfl, Real.exp_pos _, ?_⟩
    rw [Real.exp_le_one_iff]
    apply div_nonpos_of_nonpos_of_nonneg
    · have : (0 : ℝ) ≤ ((new - current : ℚ) : ℝ) := by
        have : (0 : ℚ) ≤ new - current := by linarith
        exact_mod_cast this
      linarith
    · exact le_of_lt hT

/-- Witness for C8 at concrete costs and temperature. -/
theorem C8_metropolis_acceptance_witness :
    acceptanceProbability (5 : ℚ) (3 : ℚ) 1 = 1 ∧
    (acceptanceProbability (3 : ℚ) (5 : ℚ) 1 =
      Real.exp (-(((5 - 3 : ℚ) : ℝ)) / 1) ∧
     0 < acceptanceProbability (3 : ℚ) (5 : ℚ) 1 ∧
     acceptanceProbability (3 : ℚ) (5 : ℚ) 1 ≤ 1) :=
  ⟨C8_metropolis_acceptance.1 5 3 1 (by norm_num),
   C8_metropolis_acceptance.2.1 3 5 1 (by norm_num) (by norm_num)⟩

/-! ## Claim C4: monotone best cost in both engines -/

/-- C4: in both engines the recorded best-cost sequence is non-increasing
over the whole run (for every oracle stream, strategy and starting
state), and the stored best schedule / best solution is replaced only
when a strictly lower cost is observed. -/
theorem C4_best_cost_monotone :
    (∀ (env : SolverEnv) (nt : NeighborType) (T : ℝ) (o : MoveOracle) (u : ℝ)
        (st : SAState),
        (saStep env nt T o u st).bestCost ≤ st.bestCost ∧
        ((saStep env nt T o u st).best ≠ st.best →
          (saStep env nt T o u st).bestCost < st.bestCost)) ∧
    (∀ (env : SolverEnv) (nt : NeighborType) (cooling : ℝ)
        (os : List (MoveOracle × ℝ)) (init : SAState × ℝ) (n : Nat),
        saBestAfter env nt cooling os init (n + 1) ≤
          saBestAfter env nt cooling os init n) ∧
    (∀ (ps : PSOSetup) (r1 r2 : List ℚ) (g : PSOGlobal) (p : Particle),
        (psoParticleStep ps r1 r2 g p).2.gbest_value ≤ g.gbest_value ∧
        ((psoParticleStep ps r1 r2 g p).2.best_solution ≠ g.best_solution →
          (psoParticleStep ps r1 r2 g p).2.gbest_value < g.gbest_value)) ∧
    (∀ (ps : PSOSetup) (iters : List (List (List ℚ × List ℚ)))
        (init : List Particle × PSOGlobal) (n : Nat),
        psoGbestAfter ps iters init (n + 1) ≤ psoGbestAfter ps iters init n) :=
  ⟨saStep_best_monotone, saBestAfter_antitone, psoParticleStep_monotone,
   psoGbestAfter_antitone⟩

/-- Empty PSO setup used by the C4 witness: no courses, one dummy room
dimension not exercised. -/
def exPSOSetup : PSOSetup :=
  { rooms := [], proctors := [], templates := [], slots := [], w := 7/10,
    c1 := 3/2, c2 := 3/2 }

/-- Witness for C4: a concrete particle turn that improves the global
best from infinity replaces the stored best solution and strictly
decreases gbest. -/
theorem C4_best_cost_monotone_witness :
    (psoParticleStep exPSOSetup [] []
        { gbest_position := [], gbest_value := ⊤, best_solution := none,
          gbest_updates := 0, pbest_updates := 0 }
        { position := [], velocity := [], pbest_position := [],
          pbest_value := ⊤ }).2.best_solution ≠
      (none : Option Schedule) ∧
    (psoParticleStep exPSOSetup [] []
        { gbest_position := [], gbest_value := ⊤, best_solution := none,
          gbest_updates := 0, pbest_updates := 0 }
        { position := [], velocity := [], pbest_position := [],
          pbest_value := ⊤ }).2.gbest_value < (⊤ : WithTop ℚ) := by
  have hcost : calculate_fast_pure exPSOSetup.rooms
      (assignProctors exPSOSetup.proctors
        (decodePositionToSchedule exPSOSetup
          (positionUpdate [] (velocityUpdate (7/10) (3/2) (3/2) [] [] [] [] [] [])
            (psoUB exPSOSetup)))) = 0 := by
    norm_num [calculate_fast_pure, countConflictPairs, roomEntries,
      proctorEntries, fastRoomCapacity, assignProctors,
      decodePositionToSchedule, positionUpdate, velocityUpdate, psoUB,
      exPSOSetup, List.filterMap]
  have hstep : psoParticleStep exPSOSetup [] []
      { gbest_position := [], gbest_value := ⊤, best_solution := none,
        gbest_updates := 0, pbest_updates := 0 }
      { position := [], velocity := [], pbest_position := [],
        pbest_value := ⊤ } =
      ({ position := [], velocity := [], pbest_position := [],
         pbest_value := (0 : ℚ) },
       { gbest_position := [], gbest_value := ((0 : ℚ) : WithTop ℚ),
         best_solution := some { courses := [], fitness_score := 0 },
         gbest_updates := 1, pbest_updates := 1 }) := by
    simp only [psoParticleStep, exPSOSetup]
    norm_num [velocityUpdate, positionUpdate, psoUB, decodePositionToSchedule,
      assignProctors, calculate_fast_pure, countConflictPairs, roomEntries,
      proctorEntries, fastRoomCapacity, List.filterMap, WithTop.coe_lt_top]
  have hne : (psoParticleStep exPSOSetup [] []
      { gbest_position := [], gbest_value := ⊤, best_solution := none,
        gbest_updates := 0, pbest_updates := 0 }
      { position := [], velocity := [], pbest_position := [],
        pbest_value := ⊤ }).2.best_solution ≠ (none : Option Schedule) := by
    rw [hstep]
    simp
  refine ⟨hne, ?_⟩
  exact (C4_best_cost_monotone.2.2.1 exPSOSetup [] []
    { gbest_position := [], gbest_value := ⊤, best_solution := none,
      gbest_updates := 0, pbest_updates := 0 }
    { position := [], velocity := [], pbest_position := [],
      pbest_value := ⊤ }).2 hne

/-! ## Claim C1: the locked-course invariant -/

/-- Environment for the C1 demonstration: two rooms at location "A". -/
def exEnvC1 : SolverEnv :=
  { rooms := [{ room_id := "R1", capacity := 50, location := "A" },
              { room_id := "R2", capacity := 5, location := "A" }],
    proctors := [], dates := ["2025-06-01"], times := ["07:30"] }

/-- Locked, fully scheduled course pinned to room R2 (overflowing it). -/
def exLockedCourse : Course :=
  { course_id := "LCK", name := "L", location := "A", exam_format := "w",
    student_count := 10, assigned_date := some "2025-06-01",
    assigned_time := some "07:30", assigned_room := some "R2",
    is_locked := true }

/-- Unlocked course scheduled in the large room R1. -/
def exFreeRoomCourse : Course :=
  { course_id := "FRE", name := "F", location := "A", exam_format := "w",
    student_count := 1, assigned_date := some "2025-06-01",
    assigned_time := some "09:30", assigned_room := some "R1" }

/-- Input schedule of the C1 demonstration. -/
def exS1 : Schedule := { courses := [exLockedCourse, exFreeRoomCourse] }

/-- The locked course after the swap gave it the other course's
assignment. -/
def exLockedSwapped : Course :=
  { course_id := "LCK", name := "L", location := "A", exam_format := "w",
    note := "", student_count := 10, assigned_date := some "2025-06-01",
    assigned_time := some "09:30", assigned_room := some "R1",
    assigned_proctor_id := none, is_locked := true, duration := 90 }

/-- The unlocked course after the swap gave it the locked course's
assignment. -/
def exFreeSwapped : Course :=
  { course_id := "FRE", name := "F", location := "A", exam_format := "w",
    note := "", student_count := 1, assigned_date := some "2025-06-01",
    assigned_time := some "07:30", assigned_room := some "R2",
    assigned_proctor_id := none, is_locked := false, duration := 90 }

/-- The same two courses after the swap move exchanged their
date/time/room/proctor assignments. -/
def exS1Swapped : Schedule := { courses := [exLockedSwapped, exFreeSwapped] }

/-- Room list and oversized locked course for the splitting half of the
C1 demonstration. -/
def exRoomsB : List Room := [{ room_id := "B1", capacity := 100, location := "A" }]

/-- Locked, fully scheduled course too large for any room. -/
def exLockedBig : Course :=
  { course_id := "BIG", name := "B", location := "A", exam_format := "w",
    student_count := 250, assigned_date := some "2025-06-01",
    assigned_time := some "07:30", assigned_room := some "B1",
    is_locked := true }

/-- C1 fails on the code: the swap neighbor strategy exchanges the
date/time/room of a locked, fully scheduled course, the move is
improving (probability 1) so the SA loop accepts it and deep-copies the
mutated schedule into the returned best solution, whose locked course
now sits in a different room; independently, course preparation splits
an oversized locked course into unlocked, unscheduled siblings, erasing
its pinned assignment altogether. -/
theorem C1_locked_course_violated :
    (exS1.courses.getD 0 default).is_locked = true ∧
    (exS1.courses.getD 0 default).is_scheduled = true ∧
    (exS1.courses.getD 0 default).assigned_room = some "R2" ∧
    ((saStep exEnvC1 NeighborType.swap 1 {} 0
        { current := exS1, currentCost := 750, best := exS1,
          bestCost := 750 }).best.courses.getD 0 default).course_id = "LCK" ∧
    ((saStep exEnvC1 NeighborType.swap 1 {} 0
        { current := exS1, currentCost := 750, best := exS1,
          bestCost := 750 }).best.courses.getD 0 default).assigned_room =
      some "R1" ∧
    (prepareCoursesWithSessions exRoomsB [exLockedBig] true).map
        (fun x => (x.is_locked, x.is_scheduled, x.assigned_room)) =
      [(false, false, none), (false, false, none), (false, false, none)] := by
  have hpb1 : (perturbMove exEnvC1 NeighborType.swap {} exS1).1 = exS1Swapped := by
    decide
  have hcost : calculate_fast_pure exEnvC1.rooms exS1Swapped = 0 := by
    have hcnt1 : countConflictPairs (roomEntries [exLockedSwapped, exFreeSwapped]) = 0 := by
      decide
    have hcnt2 : countConflictPairs (proctorEntries [exLockedSwapped, exFreeSwapped]) = 0 := by
      decide
    have hcap1 : capPenFast exEnvC1.rooms exLockedSwapped = 0 := by
      unfold capPenFast
      rw [if_pos (by decide : exLockedSwapped.is_scheduled = true),
        (by decide : roomLookup exEnvC1.rooms (exLockedSwapped.assigned_room.getD "") =
          some { room_id := "R1", capacity := 50, location := "A" })]
      norm_num
      intro h
      exact absurd h (by decide)
    have hcap2 : capPenFast exEnvC1.rooms exFreeSwapped = 0 := by
      unfold capPenFast
      rw [if_pos (by decide : exFreeSwapped.is_scheduled = true),
        (by decide : roomLookup exEnvC1.rooms (exFreeSwapped.assigned_room.getD "") =
          some { room_id := "R2", capacity := 5, location := "A" })]
      norm_num
      intro h
      exact absurd h (by decide)
    norm_num [calculate_fast_pure, hcnt1, hcnt2, fastRoomCapacity, hcap1, hcap2,
      exS1Swapped]
  have hp : acceptanceProbability (750 : ℚ) 0 1 = 1 := by
    norm_num [acceptanceProbability]
  have hstep : saStep exEnvC1 NeighborType.swap 1 {} 0
      { current := exS1, currentCost := 750, best := exS1, bestCost := 750 } =
      { current := exS1Swapped, currentCost := 0, best := exS1Swapped,
        bestCost := 0 } := by
    simp only [saStep, hpb1, hcost, hp]
    norm_num
  refine ⟨by decide, by decide, by decide, ?_, ?_, by decide⟩
  · rw [hstep]; decide
  · rw [hstep]; decide

/-! ## The flat pair count agrees with the source's grouped double loop -/

/-- Within-group double loop of the conflict checks: for
exams[i], exams[j] with i < j, test overlap(time_i, dur_i, time_j,
dur_j). -/
def pairCountWithin : List (String × Int) → Nat
  | [] => 0
  | t :: rest =>
    rest.countP (fun t2 => checkOverlap t.1 t.2 t2.1 t2.2) + pairCountWithin rest

/-- countConflictPairs equals the sum, over the distinct grouping keys
(the defaultdict's key set), of the within-group pair counts: grouping
preserves relative order inside each key, and every same-key flat pair
lands in exactly one group.  This justifies modelling the grouped
double loops of _check_room_conflicts / _fast_room_conflicts (and their
proctor twins) by the flat same-key pair count. -/
theorem countConflictPairs_grouped (l : List ((String × String) × (String × Int))) :
    countConflictPairs l =
      ∑ k ∈ (l.map Prod.fst).toFinset,
        pairCountWithin ((l.filter (fun e => e.1 = k)).map (·.2)) := by
  induction l with
  | nil => simp [countConflictPairs]
  | cons e rest ih =>
    have hfilter_ne : ∀ k, k ≠ e.1 →
        (e :: rest).filter (fun x => x.1 = k) =
          rest.filter (fun x => x.1 = k) := by
      intro k hk
      rw [List.filter_cons]
      simp [Ne.symm hk]
    have hfilter_eq : (e :: rest).filter (fun x => x.1 = e.1) =
        e :: rest.filter (fun x => x.1 = e.1) := by
      rw [List.filter_cons]
      simp
    have hcnt : (((rest.filter (fun x => x.1 = e.1)).map (·.2)).countP
          (fun t2 => checkOverlap e.2.1 e.2.2 t2.1 t2.2)) =
        rest.countP (fun e2 =>
          decide (e2.1 = e.1) && checkOverlap e.2.1 e.2.2 e2.2.1 e2.2.2) := by
      rw [List.countP_map, List.countP_filter]
      apply List.countP_congr
      intro a _
      simp only [Function.comp_apply]
      rw [Bool.and_comm]
    simp only [countConflictPairs, List.map_cons, List.toFinset_cons]
    by_cases hmem : e.1 ∈ (rest.map Prod.fst).toFinset
    · rw [Finset.insert_eq_self.2 hmem]
      rw [← Finset.add_sum_erase _ _ hmem]
      rw [hfilter_eq]
      simp only [List.map_cons, pairCountWithin]
      rw [hcnt]
      have hrest : ∑ k ∈ (rest.map Prod.fst).toFinset.erase e.1,
          pairCountWithin (((e :: rest).filter (fun x => x.1 = k)).map (·.2)) =
          ∑ k ∈ (rest.map Prod.fst).toFinset.erase e.1,
            pairCountWithin ((rest.filter (fun x => x.1 = k)).map (·.2)) := by
        apply Finset.sum_congr rfl
        intro k hk
        rw [hfilter_ne k (Finset.mem_erase.1 hk).1]
      rw [hrest, ih, ← Finset.add_sum_erase _ _ hmem]
      ring
    · rw [Finset.sum_insert hmem]
      rw [hfilter_eq]
      simp only [List.map_cons, pairCountWithin]
      rw [hcnt]
      have hempty : rest.filter (fun x => x.1 = e.1) = [] := by
        rw [List.filter_eq_nil_iff]
        intro a ha
        simp only [decide_eq_true_eq]
        intro hkey
        exact hmem (List.mem_toFinset.2 (by
          rw [← hkey]
          exact List.mem_map_of_mem Prod.fst ha))
      have hrest : ∑ k ∈ (rest.map Prod.fst).toFinset,
          pairCountWithin (((e :: rest).filter (fun x => x.1 = k)).map (·.2)) =
          ∑ k ∈ (rest.map Prod.fst).toFinset,
            pairCountWithin ((rest.filter (fun x => x.1 = k)).map (·.2)) := by
        apply Finset.sum_congr rfl
        intro k hk
        rw [hfilter_ne k (fun hkk => hmem (hkk ▸ hk))]
      rw [hrest, ih, hempty]
      simp [pairCountWithin]

/-! ## Which paths respect the lock -/

/-- PSO decoding honours the lock: a locked, fully scheduled template
keeps its date, time and room in every decoded schedule (this localizes
the C1 violation to the SA swap/smart branches and to course
splitting). -/
theorem decode_preserves_locked (ps : PSOSetup) (pos : List ℚ) (i : Nat)
    (t : Course) (ht : ps.templates.get? i = some t)
    (hl : t.is_locked ∧ t.is_scheduled) :
    ((decodePositionToSchedule ps pos).courses.get? i).map
        (fun c => (c.assigned_date, c.assigned_time, c.assigned_room)) =
      some (t.assigned_date, t.assigned_time, t.assigned_room) := by
  simp only [decodePositionToSchedule]
  rw [List.get?_eq_getElem?, List.getElem?_map, List.getElem?_enum]
  rw [List.get?_eq_getElem?] at ht
  rw [ht]
  simp only [Option.map_some']
  rw [if_pos hl]

/-- The random neighbor strategy honours the lock: a locked course's
date, time and room are unchanged by perturbRandom (only its proctor
may be re-assigned, in the all-courses-locked branch). -/
theorem perturbRandom_preserves_locked (env : SolverEnv) (o : MoveOracle)
    (s : Schedule) (i : Nat) (c : Course)
    (hc : s.courses.get? i = some c) (hl : c.is_locked = true) :
    ((perturbRandom env o s).1.courses.get? i).map
        (fun x => (x.assigned_date, x.assigned_time, x.assigned_room)) =
      some (c.assigned_date, c.assigned_time, c.assigned_room) := by
  simp only [perturbRandom]
  split
  · split
    · split
      next c0 hget =>
        by_cases hij : o.pickIdx % s.courses.length = i
        · subst hij
          rw [hget] at hc
          injection hc with hc0
          subst hc0
          simp only []
          rw [List.get?_eq_getElem?, List.getElem?_set_eq_of_lt _
            (List.get?_eq_some.1 hget |>.1)]
          rfl
        · simp only []
          rw [List.get?_set_ne _ _ hij, hc]
          rfl
      next => rw [hc]; rfl
    · rw [hc]; rfl
  · next hmod =>
    set pr := pickL (s.courses.enum.filter (fun p => ¬ p.2.is_locked)) o.pickIdx
      with hpr
    have hne : s.courses.enum.filter (fun p => ¬ p.2.is_locked) ≠ [] := by
      simpa [List.isEmpty_iff] using hmod
    have hmem := pickL_mem _ o.pickIdx hne
    rw [← hpr] at hmem
    have hunlocked : ¬ pr.2.is_locked := by
      have := List.of_mem_filter hmem
      simpa using this
    have hget := enum_filter_get? s.courses pr hmem
    have hij : pr.1 ≠ i := by
      intro hii
      rw [hii, hc] at hget
      injection hget with he
      rw [← he] at hunlocked
      exact hunlocked hl
    simp only []
    rw [List.get?_set_ne _ _ hij, hc]
    rfl
